import Mathlib

/-
Shallow embedding of the interval-assignment engine of `src/app.py`
(class `AssignmentStore`).  The SQLite table is modelled as a list of
rows together with the next AUTOINCREMENT id; each store method becomes
a pure function from the store state to a new store state, with Python
exceptions (`ValueError`, `sqlite3.IntegrityError`) modelled by
`Except StoreError`.  The sqlite3 connection context manager rolls the
transaction back when an exception escapes the `with` block, so an
erroring operation leaves the table exactly as it was; the embedding
reflects this by returning no store on error (`applyOp` keeps the old
state).  The `UNIQUE (masechet, daf)` schema constraint is not modelled
separately.  On the create, whole-record update and replace paths this
loses nothing on any store: `_has_overlap` or
`_validate_payload_ranges` rejects a duplicate `(masechet, daf)` pair
before the constraint could fire.  The shrink `UPDATE`s and the split
`INSERT`s of `update_assignment_daf`/`delete_assignment_daf` run no
such check, so there the constraint is unreachable only on stores
satisfying the section non-overlap invariant `Inv`; every theorem
about those paths therefore carries an `Inv` hypothesis, and the
invariant-preservation proof shows all stores reachable from the empty
store satisfy it.
-/

namespace Daf

/-- A persisted row of the `assignments` table, after `_row_to_dict`
normalisation (`daf_end` never NULL, `dedication` never None). -/
structure Assignment where
  id : Nat
  masechet : String
  daf : Int
  daf_end : Int
  name : String
  dedication : String
  learned : Bool
  is_full_masechet : Bool
deriving DecidableEq, Repr

/-- The normalised output of `_parse_payload`: a row minus its identity. -/
structure Record where
  masechet : String
  name : String
  daf : Int
  daf_end : Int
  dedication : String
  learned : Bool
  is_full_masechet : Bool
deriving DecidableEq, Repr

/-- A caller-supplied JSON payload; `none` means the key is absent from
the dict. -/
structure Payload where
  masechet : Option String := none
  name : Option String := none
  daf : Option Int := none
  daf_end : Option Int := none
  dedication : Option String := none
  learned : Option Bool := none
  is_full_masechet : Option Bool := none
deriving DecidableEq, Repr

/-- The `assignments` table plus the AUTOINCREMENT counter (SQLite
AUTOINCREMENT never reuses an id, even after `DELETE FROM`). -/
structure Store where
  rows : List Assignment
  nextId : Nat
deriving DecidableEq, Repr

/-- The two exception kinds raised by the store: `ValueError`
(validation) and `sqlite3.IntegrityError` (overlap). -/
inductive StoreError where
  | validationError
  | overlap
deriving DecidableEq, Repr

/-- Python's `str.strip()`: drop whitespace from both ends (executable,
unlike `String.trim`, so concrete runs of the store reduce). -/
def strip (s : String) : String :=
  ⟨((s.data.dropWhile Char.isWhitespace).reverse.dropWhile Char.isWhitespace).reverse⟩

/-- `_parse_payload`: merge the payload over the defaults (the existing
row for updates, nothing for creates), trim text fields, default
`daf_end` to `daf`, and reject missing required fields or
`daf_end < daf`.  Python's `or` falls back to the default when the
payload string is empty, while `daf`/`daf_end` fall back only when the
key is absent (`is None`). -/
def parse_payload (p : Payload) (require_fields : Bool)
    (defaults : Option Assignment) : Except StoreError Record :=
  let masechetRaw : Option String :=
    match p.masechet with
    | some s => if s = "" then defaults.map (·.masechet) else some s
    | none => defaults.map (·.masechet)
  let nameRaw : Option String :=
    match p.name with
    | some s => if s = "" then defaults.map (·.name) else some s
    | none => defaults.map (·.name)
  let dafOpt : Option Int :=
    match p.daf with
    | some v => some v
    | none => defaults.map (·.daf)
  let dafEndOpt : Option Int :=
    match p.daf_end with
    | some v => some v
    | none => defaults.map (·.daf_end)
  let masechet := strip (masechetRaw.getD "")
  let name := strip (nameRaw.getD "")
  let dedicationOpt : Option String :=
    match p.dedication with
    | some d => some d
    | none => defaults.map (·.dedication)
  let learned : Bool :=
    match p.learned with
    | some b => b
    | none => (defaults.map (·.learned)).getD false
  let is_full : Bool :=
    match p.is_full_masechet with
    | some b => b
    | none => (defaults.map (·.is_full_masechet)).getD false
  if require_fields ∧ (masechet = "" ∨ name = "" ∨ dafOpt = none) then
    .error .validationError
  else
    match dafOpt with
    | none => .error .validationError
    | some dafValue =>
      let dafEndValue := dafEndOpt.getD dafValue
      if dafEndValue < dafValue then .error .validationError
      else
        .ok { masechet := masechet, name := name, daf := dafValue,
              daf_end := dafEndValue,
              dedication := (dedicationOpt.map strip).getD "",
              learned := learned, is_full_masechet := is_full }

/-- The consecutive-pair scan of `_validate_payload_ranges`: walking the
ranges of one masechet sorted by start, fail when
`start <= previous_end`. -/
def chain_ok : Option Int → List (Int × Int) → Bool
  | _, [] => true
  | some pe, (s, e) :: rest => if s ≤ pe then false else chain_ok (some e) rest
  | none, (_, e) :: rest => chain_ok (some e) rest

/-- `ranges.sort(key=lambda item: item[0])`. -/
def sort_by_start (l : List (Int × Int)) : List (Int × Int) :=
  List.insertionSort (fun a b => a.1 ≤ b.1) l

instance : IsTotal (Int × Int) (fun a b => a.1 ≤ b.1) :=
  ⟨fun a b => le_total a.1 b.1⟩

instance : IsTrans (Int × Int) (fun a b => a.1 ≤ b.1) :=
  ⟨fun _ _ _ h h2 => le_trans h h2⟩

/-- `_validate_payload_ranges` as a Bool (`false` = raises
`IntegrityError`): group the batch by masechet, sort each group by
start, and require a gap between consecutive ranges. -/
def validate_payload_ranges (records : List Record) : Bool :=
  records.all fun r =>
    chain_ok none (sort_by_start
      (((records.filter (fun q => q.masechet == r.masechet)).map
        (fun q => (q.daf, q.daf_end)))))

/-- `_has_overlap`: does any row of the same masechet (other than
`exclude_id`) intersect the closed candidate interval `[start, stop]`?
The SQL predicate is `NOT (daf_end < start OR daf > stop)`. -/
def has_overlap (rows : List Assignment) (masechet : String)
    (start stop : Int) (exclude_id : Option Nat) : Bool :=
  rows.any fun r =>
    r.masechet == masechet
      && !(decide (r.daf_end < start) || decide (r.daf > stop))
      && (match exclude_id with
          | some i => r.id != i
          | none => true)

/-- `get_assignment`: lookup by id. -/
def get_assignment (st : Store) (id : Nat) : Option Assignment :=
  st.rows.find? (fun r => r.id == id)

/-- `_get_assignment_covering`: the first row of the masechet whose
closed range contains `daf` (`LIMIT 1`). -/
def get_assignment_covering (st : Store) (masechet : String) (daf : Int) :
    Option Assignment :=
  st.rows.find? fun r =>
    r.masechet == masechet && decide (r.daf ≤ daf) && decide (daf ≤ r.daf_end)

/-- A parsed record promoted to a row under a given id. -/
def assignmentOfRecord (id : Nat) (r : Record) : Assignment :=
  { id := id, masechet := r.masechet, daf := r.daf, daf_end := r.daf_end,
    name := r.name, dedication := r.dedication, learned := r.learned,
    is_full_masechet := r.is_full_masechet }

/-- One replacement segment of a split: range and learned flag from the
segment, every other field inherited from the original row (this is the
`INSERT` of the split loops). -/
def segRecord (record : Assignment) (seg : Int × Int × Bool) : Record :=
  { masechet := record.masechet, name := record.name,
    daf := seg.1, daf_end := seg.2.1,
    dedication := record.dedication, learned := seg.2.2,
    is_full_masechet := record.is_full_masechet }

/-- The list comprehension `[self._parse_payload(p, require_fields=True)
for p in payloads]`: parse payloads left to right, first failure
propagates. -/
def parse_all : List Payload → Except StoreError (List Record)
  | [] => .ok []
  | p :: ps =>
    match parse_payload p true none with
    | .error e => .error e
    | .ok r =>
      match parse_all ps with
      | .error e => .error e
      | .ok rs => .ok (r :: rs)

/-- One `INSERT INTO assignments ...`: appends the row under the fresh
AUTOINCREMENT id. -/
def insertRow (st : Store) (r : Record) : Store × Assignment :=
  let a := assignmentOfRecord st.nextId r
  ({ rows := st.rows ++ [a], nextId := st.nextId + 1 }, a)

/-- The insert loop of `create_assignments`: for each record, check
`_has_overlap` against the current table (which, inside the
transaction, already contains the earlier rows of the batch), then
insert. -/
def create_loop : Store → List Record → Except StoreError (Store × List Assignment)
  | st, [] => .ok (st, [])
  | st, r :: rs =>
    if has_overlap st.rows r.masechet r.daf r.daf_end none then
      .error .overlap
    else
      match create_loop (insertRow st r).1 rs with
      | .error e => .error e
      | .ok (st2, inserted) => .ok (st2, (insertRow st r).2 :: inserted)

/-- `create_assignments`: reject an empty batch, parse every payload,
validate the batch internally, then run the insert loop in one
transaction (an error rolls everything back). Returns the inserted rows
ordered by id, as `_get_assignments_by_ids` does. -/
def create_assignments (st : Store) (payloads : List Payload) :
    Except StoreError (Store × List Assignment) :=
  if payloads.isEmpty then .error .validationError
  else
    match parse_all payloads with
    | .error e => .error e
    | .ok records =>
      if validate_payload_ranges records then create_loop st records
      else .error .overlap

/-- `create_assignment`: the single-payload wrapper over
`create_assignments`. -/
def create_assignment (st : Store) (p : Payload) :
    Except StoreError (Store × Option Assignment) :=
  match create_assignments st [p] with
  | .error e => .error e
  | .ok (st1, records) => .ok (st1, records.head?)

/-- `update_assignment` (whole-record update): merge the payload over
the existing row, re-check overlap excluding the row itself, rewrite
the row in place, and re-fetch it.  `none` result = id not found. -/
def update_assignment (st : Store) (id : Nat) (p : Payload) :
    Except StoreError (Store × Option Assignment) :=
  match get_assignment st id with
  | none => .ok (st, none)
  | some existing =>
    match parse_payload p false (some existing) with
    | .error e => .error e
    | .ok record =>
      if has_overlap st.rows record.masechet record.daf record.daf_end (some id) then
        .error .overlap
      else
        let st1 : Store :=
          { st with rows := st.rows.map fun r =>
              if r.id = id then assignmentOfRecord id record else r }
        .ok (st1, get_assignment st1 id)

/-- `update_assignment_daf` (mark-unit): `none` when the id is missing
or the target unit is outside `[daf, daf_end]`; whole-record update for
a single-unit range; no-op when the learned flag already matches;
otherwise delete the row and insert the up-to-three split segments,
returning the row now covering the target. -/
def update_assignment_daf (st : Store) (id : Nat) (target_daf : Int)
    (learned : Bool) : Except StoreError (Store × Option Assignment) :=
  match get_assignment st id with
  | none => .ok (st, none)
  | some record =>
    let start := record.daf
    let stop := record.daf_end
    if target_daf < start ∨ target_daf > stop then .ok (st, none)
    else if start = stop then
      update_assignment st id { learned := some learned }
    else if record.learned = learned then .ok (st, some record)
    else
      let segments : List (Int × Int × Bool) :=
        (if start < target_daf then [(start, target_daf - 1, record.learned)] else [])
          ++ [(target_daf, target_daf, learned)]
          ++ (if target_daf < stop then [(target_daf + 1, stop, record.learned)] else [])
      let st1 : Store := { st with rows := st.rows.filter (fun r => r.id != id) }
      let st2 : Store := segments.foldl
        (fun s seg => (insertRow s (segRecord record seg)).1) st1
      .ok (st2, get_assignment_covering st2 record.masechet target_daf)

/-- `delete_assignment`: whole-record delete; returns whether a row was
deleted (`rowcount > 0`). -/
def delete_assignment (st : Store) (id : Nat) : Store × Bool :=
  ({ st with rows := st.rows.filter (fun r => r.id != id) },
   st.rows.any (fun r => r.id == id))

/-- `delete_assignment_daf` (remove-unit): `false` when the id is
missing or the target is out of range; delete a single-unit row
outright; shrink in place at either boundary; otherwise delete the row
and insert the two remaining segments. -/
def delete_assignment_daf (st : Store) (id : Nat) (target_daf : Int) :
    Store × Bool :=
  match get_assignment st id with
  | none => (st, false)
  | some record =>
    let start := record.daf
    let stop := record.daf_end
    if target_daf < start ∨ target_daf > stop then (st, false)
    else if start = stop then
      ({ st with rows := st.rows.filter (fun r => r.id != id) },
       st.rows.any (fun r => r.id == id))
    else if target_daf = start then
      ({ st with rows := st.rows.map fun r =>
          if r.id = id then { r with daf := start + 1, daf_end := stop } else r },
       true)
    else if target_daf = stop then
      ({ st with rows := st.rows.map fun r =>
          if r.id = id then { r with daf_end := stop - 1 } else r },
       true)
    else
      let st1 : Store := { st with rows := st.rows.filter (fun r => r.id != id) }
      let st2 : Store := [(start, target_daf - 1), (target_daf + 1, stop)].foldl
        (fun s seg => (insertRow s (segRecord record (seg.1, seg.2, record.learned))).1)
        st1
      (st2, true)

/-- `replace_assignments`: parse and batch-validate every payload, then
clear the whole table and repopulate it, returning the count.  An empty
list is accepted (only `None`/non-list input raises). -/
def replace_assignments (st : Store) (payloads : List Payload) :
    Except StoreError (Store × Nat) :=
  match parse_all payloads with
  | .error e => .error e
  | .ok records =>
    if validate_payload_ranges records then
      let st1 : Store := { st with rows := [] }
      let st2 := records.foldl (fun s r => (insertRow s r).1) st1
      .ok (st2, records.length)
    else .error .overlap

/-- The core mutating operations reachable from the HTTP layer. -/
inductive Op where
  | createOne (p : Payload)
  | createMany (ps : List Payload)
  | updateWhole (id : Nat) (p : Payload)
  | updateUnit (id : Nat) (target : Int) (learned : Bool)
  | deleteWhole (id : Nat)
  | deleteUnit (id : Nat) (target : Int)
  | replaceAll (ps : List Payload)

/-- Run one operation; a raised error leaves the table untouched (the
exception escapes the `with` block, which rolls back). -/
def applyOp (st : Store) : Op → Store
  | .createOne p =>
    match create_assignment st p with
    | .ok (st1, _) => st1
    | .error _ => st
  | .createMany ps =>
    match create_assignments st ps with
    | .ok (st1, _) => st1
    | .error _ => st
  | .updateWhole id p =>
    match update_assignment st id p with
    | .ok (st1, _) => st1
    | .error _ => st
  | .updateUnit id t b =>
    match update_assignment_daf st id t b with
    | .ok (st1, _) => st1
    | .error _ => st
  | .deleteWhole id => (delete_assignment st id).1
  | .deleteUnit id t => (delete_assignment_daf st id t).1
  | .replaceAll ps =>
    match replace_assignments st ps with
    | .ok (st1, _) => st1
    | .error _ => st

/-- A fresh database: no rows, first AUTOINCREMENT id is 1. -/
def emptyStore : Store := { rows := [], nextId := 1 }

/-- Run a sequence of operations from the empty store. -/
def runOps (ops : List Op) : Store := ops.foldl applyOp emptyStore

/-- Closed intervals `[a.daf, a.daf_end]` and `[b.daf, b.daf_end]` do
not intersect. -/
def RangesDisjoint (a b : Assignment) : Prop :=
  a.daf_end < b.daf ∨ b.daf_end < a.daf

instance (a b : Assignment) : Decidable (RangesDisjoint a b) := by
  unfold RangesDisjoint; infer_instance

/-- The section non-overlap invariant: two distinct rows of one
masechet have disjoint closed ranges. -/
def Inv (st : Store) : Prop :=
  ∀ a ∈ st.rows, ∀ b ∈ st.rows,
    a.masechet = b.masechet → a.id ≠ b.id → RangesDisjoint a b

instance (st : Store) : Decidable (Inv st) := by
  unfold Inv; infer_instance

/-- Bookkeeping invariant of the table: every id is below the
AUTOINCREMENT counter and ids are unique. -/
def WF (st : Store) : Prop :=
  (∀ a ∈ st.rows, a.id < st.nextId) ∧ (st.rows.map (·.id)).Nodup

instance (st : Store) : Decidable (WF st) := by
  unfold WF; infer_instance

/-- The text fields of a row are fixed points of `strip` (true of every
row the store itself writes, since `_parse_payload` strips them). -/
def Trimmed (a : Assignment) : Prop :=
  strip a.masechet = a.masechet ∧ strip a.name = a.name
    ∧ strip a.dedication = a.dedication

instance (a : Assignment) : Decidable (Trimmed a) := by
  unfold Trimmed; infer_instance

/-- Some row in the list with the given masechet covers unit `u`. -/
def coversIn (rows : List Assignment) (masechet : String) (u : Int) : Prop :=
  ∃ q ∈ rows, q.masechet = masechet ∧ q.daf ≤ u ∧ u ≤ q.daf_end

instance (rows : List Assignment) (m : String) (u : Int) :
    Decidable (coversIn rows m u) := by
  unfold coversIn; infer_instance

/-- Some row of the given masechet covers unit `u`. -/
def coverageAt (st : Store) (masechet : String) (u : Int) : Prop :=
  coversIn st.rows masechet u

instance (st : Store) (m : String) (u : Int) : Decidable (coverageAt st m u) := by
  unfold coverageAt; infer_instance

/-- A candidate record is disjoint from every row of its masechet in the
given row list (what a `false` answer of `_has_overlap` certifies). -/
def FreshDisjoint (rows : List Assignment) (r : Record) : Prop :=
  ∀ b ∈ rows, b.masechet = r.masechet → (b.daf_end < r.daf ∨ r.daf_end < b.daf)

/-- Two parsed records of one masechet have disjoint closed ranges. -/
def RecDisjoint (r q : Record) : Prop :=
  r.masechet = q.masechet → (r.daf_end < q.daf ∨ q.daf_end < r.daf)

/-- Sample payloads and stores used by the concrete witnesses. -/
def payloadA15 : Payload :=
  { masechet := some "A", name := some "owner", daf := some 1, daf_end := some 5 }

def payloadA56 : Payload :=
  { masechet := some "A", name := some "owner", daf := some 5, daf_end := some 6 }

def payloadA68 : Payload :=
  { masechet := some "A", name := some "owner", daf := some 6, daf_end := some 8 }

def rowA15 : Assignment :=
  { id := 1, masechet := "A", daf := 1, daf_end := 5, name := "owner",
    dedication := "", learned := false, is_full_masechet := false }

def rowA68 : Assignment :=
  { id := 2, masechet := "A", daf := 6, daf_end := 8, name := "owner",
    dedication := "", learned := false, is_full_masechet := false }

def storeA15 : Store := { rows := [rowA15], nextId := 2 }

/-- A one-row store with the spec's running example: section `A`,
range `[2,5]`, not learned. -/
def rowB25 : Assignment :=
  { id := 1, masechet := "A", daf := 2, daf_end := 5, name := "owner",
    dedication := "", learned := false, is_full_masechet := false }

def storeB25 : Store := { rows := [rowB25], nextId := 2 }

/-- A partial update payload carrying only a dedication. -/
def payloadDed : Payload := { dedication := some "done" }

theorem get_assignment_mem {st : Store} {id : Nat} {r : Assignment}
    (h : get_assignment st id = some r) : r ∈ st.rows ∧ r.id = id := by
  refine ⟨List.mem_of_find?_eq_some h, ?_⟩
  have h2 := List.find?_some h
  simpa using h2

theorem mem_id_unique {st : Store} (hwf : WF st) {r q : Assignment}
    (hr : r ∈ st.rows) (hq : q ∈ st.rows) (h : r.id = q.id) : r = q :=
  List.inj_on_of_nodup_map hwf.2 hr hq h

theorem has_overlap_true_iff {rows : List Assignment} {m : String} {s e : Int}
    {ex : Option Nat} :
    has_overlap rows m s e ex = true ↔
      ∃ r ∈ rows, r.masechet = m ∧ ¬(r.daf_end < s ∨ e < r.daf)
        ∧ ∀ i, ex = some i → r.id ≠ i := by
  unfold has_overlap
  rw [List.any_eq_true]
  constructor
  · rintro ⟨r, hr, hp⟩
    refine ⟨r, hr, ?_⟩
    cases ex <;> simp_all [not_or]
  · rintro ⟨r, hr, h1, h2, h3⟩
    refine ⟨r, hr, ?_⟩
    cases ex <;> simp_all [not_or]

theorem has_overlap_false_iff {rows : List Assignment} {m : String} {s e : Int} :
    has_overlap rows m s e none = false ↔
      ∀ r ∈ rows, r.masechet = m → (r.daf_end < s ∨ e < r.daf) := by
  rw [Bool.eq_false_iff, ne_eq, has_overlap_true_iff]
  constructor
  · intro h r hr hm
    by_contra hc
    exact h ⟨r, hr, hm, by tauto, by simp⟩
  · rintro h ⟨r, hr, hm, hno, -⟩
    exact hno (h r hr hm)

theorem has_overlap_false_exclude {rows : List Assignment} {m : String}
    {s e : Int} {id : Nat}
    (h : has_overlap rows m s e (some id) = false) :
    ∀ r ∈ rows, r.masechet = m → r.id ≠ id → (r.daf_end < s ∨ e < r.daf) := by
  intro r hr hm hid
  rw [Bool.eq_false_iff, ne_eq, has_overlap_true_iff] at h
  by_contra hc
  exact h ⟨r, hr, hm, by tauto, by simp [hid]⟩

theorem has_overlap_append_left {rows l : List Assignment} {m : String}
    {s e : Int} (h : has_overlap rows m s e none = true) :
    has_overlap (rows ++ l) m s e none = true := by
  unfold has_overlap at h ⊢
  rw [List.any_append, h, Bool.true_or]

theorem find?_append_of_left_none {p : Assignment → Bool}
    {l1 l2 : List Assignment} (h : ∀ x ∈ l1, p x = false) :
    List.find? p (l1 ++ l2) = List.find? p l2 := by
  rw [List.find?_append]
  have h1 : List.find? p l1 = none := by
    rw [List.find?_eq_none]
    intro x hx
    simp [h x hx]
  rw [h1, Option.none_or]

theorem insertRow_rows (st : Store) (r : Record) :
    (insertRow st r).1.rows = st.rows ++ [assignmentOfRecord st.nextId r] := rfl

theorem insertRow_WF {st : Store} (r : Record) (h : WF st) :
    WF (insertRow st r).1 := by
  obtain ⟨hlt, hnd⟩ := h
  constructor
  · intro a ha
    rcases List.mem_append.1 ha with ha | ha
    · exact Nat.lt_succ_of_lt (hlt a ha)
    · simp only [List.mem_singleton] at ha
      subst ha
      exact Nat.lt_succ_self _
  · rw [insertRow_rows, List.map_append, List.nodup_append]
    refine ⟨hnd, List.nodup_singleton _, ?_⟩
    intro x hx hx2
    simp only [List.map_cons, List.map_nil, List.mem_singleton] at hx2
    rcases List.mem_map.1 hx with ⟨a, ha, rfl⟩
    have h1 := hlt a ha
    have h2 : (assignmentOfRecord st.nextId r).id = st.nextId := rfl
    omega

theorem insertRow_Inv {st : Store} {r : Record} (hinv : Inv st)
    (hfresh : FreshDisjoint st.rows r) : Inv (insertRow st r).1 := by
  intro a ha b hb hm hid
  rcases List.mem_append.1 ha with ha | ha <;>
    rcases List.mem_append.1 hb with hb | hb
  · exact hinv a ha b hb hm hid
  · simp only [List.mem_singleton] at hb
    subst hb
    exact hfresh a ha hm
  · simp only [List.mem_singleton] at ha
    subst ha
    exact Or.symm (hfresh b hb hm.symm)
  · simp only [List.mem_singleton] at ha hb
    subst ha; subst hb
    exact absurd rfl hid

theorem filter_WF {st : Store} (p : Assignment → Bool) (h : WF st) :
    WF { st with rows := st.rows.filter p } := by
  obtain ⟨hlt, hnd⟩ := h
  refine ⟨fun a ha => hlt a (List.mem_of_mem_filter ha), ?_⟩
  exact hnd.sublist (List.Sublist.map _ (List.filter_sublist _))

theorem filter_Inv {st : Store} (p : Assignment → Bool) (h : Inv st) :
    Inv { st with rows := st.rows.filter p } :=
  fun a ha b hb => h a (List.mem_of_mem_filter ha) b (List.mem_of_mem_filter hb)

theorem replace_row_rows_id {st : Store} {id : Nat} {A : Assignment}
    (hid : A.id = id) :
    (st.rows.map fun x => if x.id = id then A else x).map (·.id)
      = st.rows.map (·.id) := by
  rw [List.map_map]
  refine List.map_congr_left fun x _ => ?_
  by_cases hx : x.id = id
  · simp [hx, hid]
  · simp [hx]

theorem replace_row_WF {st : Store} {id : Nat} {A : Assignment}
    (hwf : WF st) (hid : A.id = id) :
    WF { st with rows := st.rows.map fun x => if x.id = id then A else x } := by
  obtain ⟨hlt, hnd⟩ := hwf
  constructor
  · intro a ha
    rcases List.mem_map.1 ha with ⟨x, hx, rfl⟩
    by_cases hxid : x.id = id
    · simpa [hxid, hid] using hlt x hx
    · simpa [hxid] using hlt x hx
  · rw [replace_row_rows_id hid]
    exact hnd

theorem replace_row_mem {st : Store} {id : Nat} {A y : Assignment}
    (hy : y ∈ st.rows.map fun x => if x.id = id then A else x) :
    y = A ∨ (y ∈ st.rows ∧ y.id ≠ id) := by
  rcases List.mem_map.1 hy with ⟨x, hx, rfl⟩
  by_cases hxid : x.id = id
  · simp [hxid]
  · simp [hxid, hx, hxid]

theorem replace_row_Inv {st : Store} {id : Nat} {A : Assignment}
    (hinv : Inv st) (hid : A.id = id)
    (hdisj : ∀ b ∈ st.rows, b.masechet = A.masechet → b.id ≠ id →
      RangesDisjoint A b) :
    Inv { st with rows := st.rows.map fun x => if x.id = id then A else x } := by
  intro a ha b hb hm hne
  rcases replace_row_mem ha with rfl | ⟨ha2, haid⟩ <;>
    rcases replace_row_mem hb with rfl | ⟨hb2, hbid⟩
  · exact absurd rfl hne
  · exact hdisj b hb2 hm.symm hbid
  · exact Or.symm (hdisj a ha2 hm haid)
  · exact hinv a ha2 b hb2 hm hne

theorem foldl_insert_WF_Inv :
    ∀ (recs : List Record) (st : Store),
      WF st → Inv st →
      (∀ q ∈ recs, FreshDisjoint st.rows q) →
      recs.Pairwise RecDisjoint →
      WF (recs.foldl (fun s r => (insertRow s r).1) st)
        ∧ Inv (recs.foldl (fun s r => (insertRow s r).1) st)
  | [], _, hwf, hinv, _, _ => ⟨hwf, hinv⟩
  | r :: rs, st, hwf, hinv, hfresh, hpw => by
    rw [List.foldl_cons]
    rcases List.pairwise_cons.1 hpw with ⟨hhead, htail⟩
    refine foldl_insert_WF_Inv rs _ (insertRow_WF r hwf)
      (insertRow_Inv hinv (hfresh r (List.mem_cons_self r rs))) ?_ htail
    intro q hq b hb hm
    rw [insertRow_rows] at hb
    rcases List.mem_append.1 hb with hb | hb
    · exact hfresh q (List.mem_cons_of_mem _ hq) b hb hm
    · simp only [List.mem_singleton] at hb
      subst hb
      exact hhead q hq hm

theorem create_loop_ok_WF_Inv :
    ∀ (rs : List Record) (st st1 : Store) (out : List Assignment),
      WF st → Inv st → create_loop st rs = .ok (st1, out) → WF st1 ∧ Inv st1
  | [], st, st1, out, hwf, hinv, h => by
    unfold create_loop at h
    cases h
    exact ⟨hwf, hinv⟩
  | r :: rs, st, st1, out, hwf, hinv, h => by
    unfold create_loop at h
    by_cases hov : has_overlap st.rows r.masechet r.daf r.daf_end none = true
    · rw [if_pos hov] at h; cases h
    · rw [Bool.not_eq_true] at hov
      rw [if_neg (by simp [hov])] at h
      cases hloop : create_loop (insertRow st r).1 rs with
      | error e => rw [hloop] at h; cases h
      | ok p =>
        rw [hloop] at h
        cases p with
        | mk st2 outs =>
          cases h
          exact create_loop_ok_WF_Inv rs _ _ _ (insertRow_WF r hwf)
            (insertRow_Inv hinv (has_overlap_false_iff.1 hov)) hloop

theorem create_loop_error_of_overlap :
    ∀ (rs : List Record) (st : Store),
      (∃ r ∈ rs, has_overlap st.rows r.masechet r.daf r.daf_end none = true) →
      ∃ e, create_loop st rs = .error e
  | [], _, h => by simp at h
  | r :: rs, st, h => by
    by_cases h0 : has_overlap st.rows r.masechet r.daf r.daf_end none = true
    · exact ⟨.overlap, by unfold create_loop; rw [if_pos h0]⟩
    · obtain ⟨q, hq, hov⟩ := h
      rcases List.mem_cons.1 hq with rfl | hq2
      · exact absurd hov h0
      · have hmono : has_overlap (insertRow st r).1.rows q.masechet q.daf q.daf_end none
            = true := by
          rw [insertRow_rows]
          exact has_overlap_append_left hov
        obtain ⟨e, he⟩ := create_loop_error_of_overlap rs (insertRow st r).1 ⟨q, hq2, hmono⟩
        refine ⟨e, ?_⟩
        unfold create_loop
        rw [if_neg h0, he]

theorem chain_ok_pairwise :
    ∀ (pe : Option Int) (l : List (Int × Int)),
      List.Sorted (fun a b : Int × Int => a.1 ≤ b.1) l →
      chain_ok pe l = true →
      (∀ x ∈ l, ∀ v, pe = some v → v < x.1)
        ∧ List.Pairwise (fun x y : Int × Int => x.2 < y.1) l
  | _, [], _, _ => ⟨by simp, List.Pairwise.nil⟩
  | pe, (s, e) :: rest, hsorted, hchain => by
    rcases List.pairwise_cons.1 hsorted with ⟨hle, hsorted2⟩
    have hlt : ∀ v, pe = some v → v < s := by
      intro v hv
      subst hv
      unfold chain_ok at hchain
      by_cases hsv : s ≤ v
      · rw [if_pos hsv] at hchain; cases hchain
      · omega
    have hrec : chain_ok (some e) rest = true := by
      cases pe with
      | none => simpa [chain_ok] using hchain
      | some v =>
        unfold chain_ok at hchain
        by_cases hsv : s ≤ v
        · rw [if_pos hsv] at hchain; cases hchain
        · rwa [if_neg hsv] at hchain
    obtain ⟨hgt, hpw⟩ := chain_ok_pairwise (some e) rest hsorted2 hrec
    constructor
    · intro x hx v hv
      rcases List.mem_cons.1 hx with rfl | hx2
      · exact hlt v hv
      · have h1 := hle x hx2
        have h2 := hlt v hv
        omega
    · refine List.pairwise_cons.2 ⟨?_, hpw⟩
      intro y hy
      exact hgt y hy e rfl

theorem pairwise_of_filter {α : Type} {p : α → Bool} {R : α → α → Prop} :
    ∀ {l : List α}, List.Pairwise R (l.filter p) →
      List.Pairwise (fun a b => p a = true → p b = true → R a b) l
  | [], _ => List.Pairwise.nil
  | x :: xs, h => by
    by_cases hx : p x = true
    · rw [List.filter_cons_of_pos hx] at h
      rcases List.pairwise_cons.1 h with ⟨hhead, htail⟩
      refine List.pairwise_cons.2 ⟨?_, pairwise_of_filter htail⟩
      intro y hy _ hpy
      exact hhead y (List.mem_filter.2 ⟨hy, hpy⟩)
    · rw [List.filter_cons_of_neg (by simpa using hx)] at h
      refine List.pairwise_cons.2 ⟨?_, pairwise_of_filter h⟩
      intro y _ hpx
      exact absurd hpx hx

theorem validate_pairwise {records : List Record}
    (h : validate_payload_ranges records = true) :
    records.Pairwise RecDisjoint := by
  rw [List.pairwise_iff_getElem]
  intro i j hi hj hij
  intro hm
  have hgroup := (List.all_eq_true.1 h) records[i] (List.getElem_mem hi)
  have hsorted := List.sorted_insertionSort (fun a b : Int × Int => a.1 ≤ b.1)
    ((records.filter (fun q => q.masechet == records[i].masechet)).map
      (fun q => (q.daf, q.daf_end)))
  have hpw_sorted := (chain_ok_pairwise none _ hsorted hgroup).2
  have hpw_sym : List.Pairwise (fun x y : Int × Int => x.2 < y.1 ∨ y.2 < x.1)
      (sort_by_start ((records.filter (fun q => q.masechet == records[i].masechet)).map
        (fun q => (q.daf, q.daf_end)))) :=
    hpw_sorted.imp (fun h2 => Or.inl h2)
  have hperm := List.perm_insertionSort (fun a b : Int × Int => a.1 ≤ b.1)
    ((records.filter (fun q => q.masechet == records[i].masechet)).map
      (fun q => (q.daf, q.daf_end)))
  have hpw_l : List.Pairwise (fun x y : Int × Int => x.2 < y.1 ∨ y.2 < x.1)
      ((records.filter (fun q => q.masechet == records[i].masechet)).map
        (fun q => (q.daf, q.daf_end))) :=
    (List.Perm.pairwise_iff (fun h2 => h2.symm) hperm).1 hpw_sym
  rw [List.pairwise_map] at hpw_l
  have hpw_rec := pairwise_of_filter hpw_l
  have hres := (List.pairwise_iff_getElem.1 hpw_rec) i j hi hj hij
  exact hres (by simp) (by simp [hm])

theorem replace_ok_WF_Inv {st st1 : Store} {ps : List Payload} {n : Nat}
    (h : replace_assignments st ps = .ok (st1, n)) : WF st1 ∧ Inv st1 := by
  unfold replace_assignments at h
  split at h
  · cases h
  next records hp =>
    split at h
    next hv =>
      have hbase_wf : WF { st with rows := ([] : List Assignment) } :=
        ⟨by simp, by simp⟩
      have hbase_inv : Inv { st with rows := ([] : List Assignment) } := by
        intro a ha; simp at ha
      have hall := foldl_insert_WF_Inv records _ hbase_wf hbase_inv
        (by intro q _ b hb; simp at hb) (validate_pairwise hv)
      cases h
      exact hall
    next hv => cases h

theorem update_assignment_notfound {st : Store} {id : Nat} {p : Payload}
    (h : get_assignment st id = none) :
    update_assignment st id p = .ok (st, none) := by
  unfold update_assignment
  simp only [h]

theorem get_assignment_map_replace {st : Store} {id : Nat} {A ex : Assignment}
    (hget : get_assignment st id = some ex) (hid : A.id = id) :
    get_assignment
        { st with rows := st.rows.map fun x => if x.id = id then A else x } id
      = some A := by
  have hexid : ex.id = id := (get_assignment_mem hget).2
  unfold get_assignment at hget ⊢
  rw [List.find?_map]
  have hcomp : ((fun r : Assignment => r.id == id)
      ∘ fun x : Assignment => if x.id = id then A else x)
      = fun r : Assignment => r.id == id := by
    funext x
    by_cases hx : x.id = id
    · simp [hx, hid]
    · simp [hx]
  rw [hcomp, hget]
  simp [hexid]

theorem update_assignment_ok_eq {st : Store} {id : Nat} {p : Payload}
    {ex : Assignment} {record : Record}
    (hget : get_assignment st id = some ex)
    (hparse : parse_payload p false (some ex) = .ok record)
    (hov : has_overlap st.rows record.masechet record.daf record.daf_end
      (some id) = false) :
    update_assignment st id p =
      .ok ({ st with rows := st.rows.map fun x =>
               if x.id = id then assignmentOfRecord id record else x },
           some (assignmentOfRecord id record)) := by
  unfold update_assignment
  simp only [hget, hparse, hov, Bool.false_eq_true, if_false]
  rw [get_assignment_map_replace hget rfl]

theorem update_assignment_ok_WF_Inv {st st1 : Store} {id : Nat} {p : Payload}
    {out : Option Assignment}
    (hwf : WF st) (hinv : Inv st)
    (h : update_assignment st id p = .ok (st1, out)) : WF st1 ∧ Inv st1 := by
  unfold update_assignment at h
  split at h
  · cases h; exact ⟨hwf, hinv⟩
  next ex hget =>
    split at h
    · cases h
    next record hparse =>
      split at h
      next hov => cases h
      next hov =>
        cases h
        rw [Bool.not_eq_true] at hov
        refine ⟨replace_row_WF hwf rfl, replace_row_Inv hinv rfl ?_⟩
        intro c hc hm hcid
        exact Or.symm (has_overlap_false_exclude hov c hc hm hcid)

theorem update_daf_notfound {st : Store} {id : Nat} {t : Int} {b : Bool}
    (h : get_assignment st id = none) :
    update_assignment_daf st id t b = .ok (st, none) := by
  unfold update_assignment_daf
  simp only [h]

theorem update_daf_oor {st : Store} {id : Nat} {t : Int} {b : Bool}
    {record : Assignment}
    (hget : get_assignment st id = some record)
    (h : t < record.daf ∨ t > record.daf_end) :
    update_assignment_daf st id t b = .ok (st, none) := by
  unfold update_assignment_daf
  simp only [hget]
  rw [if_pos h]

theorem update_daf_single {st : Store} {id : Nat} {t : Int} {b : Bool}
    {record : Assignment}
    (hget : get_assignment st id = some record)
    (hin : ¬(t < record.daf ∨ t > record.daf_end))
    (heq : record.daf = record.daf_end) :
    update_assignment_daf st id t b
      = update_assignment st id { learned := some b } := by
  unfold update_assignment_daf
  simp only [hget]
  rw [if_neg hin, if_pos heq]

theorem update_daf_idem_eq {st : Store} {id : Nat} {t : Int} {b : Bool}
    {record : Assignment}
    (hget : get_assignment st id = some record)
    (hin : ¬(t < record.daf ∨ t > record.daf_end))
    (hne : record.daf ≠ record.daf_end)
    (hl : record.learned = b) :
    update_assignment_daf st id t b = .ok (st, some record) := by
  unfold update_assignment_daf
  simp only [hget]
  rw [if_neg hin, if_neg hne, if_pos hl]

theorem update_daf_split_eq {st : Store} {id : Nat} {t : Int} {b : Bool}
    {record : Assignment}
    (hget : get_assignment st id = some record)
    (hin : ¬(t < record.daf ∨ t > record.daf_end))
    (hne : record.daf ≠ record.daf_end)
    (hl : record.learned ≠ b) :
    update_assignment_daf st id t b =
      (let segments :=
        (if record.daf < t then [(record.daf, t - 1, record.learned)] else [])
          ++ [(t, t, b)]
          ++ (if t < record.daf_end then [(t + 1, record.daf_end, record.learned)]
              else []);
       let st2 := segments.foldl (fun s seg => (insertRow s (segRecord record seg)).1)
         { st with rows := st.rows.filter (fun r => r.id != id) };
       .ok (st2, get_assignment_covering st2 record.masechet t)) := by
  unfold update_assignment_daf
  simp only [hget]
  rw [if_neg hin, if_neg hne, if_neg hl]

theorem delete_daf_notfound {st : Store} {id : Nat} {t : Int}
    (h : get_assignment st id = none) :
    delete_assignment_daf st id t = (st, false) := by
  unfold delete_assignment_daf
  simp only [h]

theorem delete_daf_oor {st : Store} {id : Nat} {t : Int} {record : Assignment}
    (hget : get_assignment st id = some record)
    (h : t < record.daf ∨ t > record.daf_end) :
    delete_assignment_daf st id t = (st, false) := by
  unfold delete_assignment_daf
  simp only [hget]
  rw [if_pos h]

theorem delete_daf_whole {st : Store} {id : Nat} {t : Int} {record : Assignment}
    (hget : get_assignment st id = some record)
    (hin : ¬(t < record.daf ∨ t > record.daf_end))
    (heq : record.daf = record.daf_end) :
    delete_assignment_daf st id t =
      ({ st with rows := st.rows.filter (fun r => r.id != id) },
       st.rows.any (fun r => r.id == id)) := by
  unfold delete_assignment_daf
  simp only [hget]
  rw [if_neg hin, if_pos heq]

theorem delete_daf_left {st : Store} {id : Nat} {t : Int} {record : Assignment}
    (hget : get_assignment st id = some record)
    (hin : ¬(t < record.daf ∨ t > record.daf_end))
    (hne : record.daf ≠ record.daf_end)
    (ht : t = record.daf) :
    delete_assignment_daf st id t =
      ({ st with rows := st.rows.map fun r =>
           if r.id = id then { r with daf := record.daf + 1, daf_end := record.daf_end }
           else r },
       true) := by
  unfold delete_assignment_daf
  simp only [hget]
  rw [if_neg hin, if_neg hne, if_pos ht]

theorem delete_daf_right {st : Store} {id : Nat} {t : Int} {record : Assignment}
    (hget : get_assignment st id = some record)
    (hin : ¬(t < record.daf ∨ t > record.daf_end))
    (hne : record.daf ≠ record.daf_end)
    (ht1 : t ≠ record.daf) (ht2 : t = record.daf_end) :
    delete_assignment_daf st id t =
      ({ st with rows := st.rows.map fun r =>
           if r.id = id then { r with daf_end := record.daf_end - 1 } else r },
       true) := by
  unfold delete_assignment_daf
  simp only [hget]
  rw [if_neg hin, if_neg hne, if_neg ht1, if_pos ht2]

theorem delete_daf_interior {st : Store} {id : Nat} {t : Int} {record : Assignment}
    (hget : get_assignment st id = some record)
    (hin : ¬(t < record.daf ∨ t > record.daf_end))
    (hne : record.daf ≠ record.daf_end)
    (ht1 : t ≠ record.daf) (ht2 : t ≠ record.daf_end) :
    delete_assignment_daf st id t =
      ([(record.daf, t - 1), (t + 1, record.daf_end)].foldl
        (fun s seg => (insertRow s (segRecord record (seg.1, seg.2, record.learned))).1)
        { st with rows := st.rows.filter (fun r => r.id != id) },
       true) := by
  unfold delete_assignment_daf
  simp only [hget]
  rw [if_neg hin, if_neg hne, if_neg ht1, if_neg ht2]

theorem fresh_seg_filter {st : Store} {record : Assignment} {id : Nat}
    {seg : Int × Int × Bool}
    (hinv : Inv st) (hmem : record ∈ st.rows) (hid : record.id = id)
    (hd : record.daf ≤ seg.1) (he : seg.2.1 ≤ record.daf_end) :
    FreshDisjoint (st.rows.filter (fun r => r.id != id)) (segRecord record seg) := by
  intro c hc hm
  rcases List.mem_filter.1 hc with ⟨hc1, hc2⟩
  have hcid : c.id ≠ record.id := by
    rw [hid]; simpa using hc2
  simp only [segRecord] at hm
  have hdisj := hinv c hc1 record hmem hm hcid
  simp only [segRecord]
  rcases hdisj with h1 | h1
  · exact Or.inl (by omega)
  · exact Or.inr (by omega)

theorem foldl_insert_seg_WF_Inv (record : Assignment) :
    ∀ (segs : List (Int × Int × Bool)) (st : Store),
      WF st → Inv st →
      (∀ s ∈ segs, FreshDisjoint st.rows (segRecord record s)) →
      (segs.Pairwise fun s1 s2 => s1.2.1 < s2.1 ∨ s2.2.1 < s1.1) →
      WF (segs.foldl (fun s seg => (insertRow s (segRecord record seg)).1) st)
        ∧ Inv (segs.foldl (fun s seg => (insertRow s (segRecord record seg)).1) st)
  | [], _, hwf, hinv, _, _ => ⟨hwf, hinv⟩
  | s :: ss, st, hwf, hinv, hfresh, hpw => by
    rw [List.foldl_cons]
    rcases List.pairwise_cons.1 hpw with ⟨hhead, htail⟩
    refine foldl_insert_seg_WF_Inv record ss _ (insertRow_WF _ hwf)
      (insertRow_Inv hinv (hfresh s (List.mem_cons_self s ss))) ?_ htail
    intro q hq c hc hm
    rw [insertRow_rows] at hc
    rcases List.mem_append.1 hc with hc | hc
    · exact hfresh q (List.mem_cons_of_mem _ hq) c hc hm
    · simp only [List.mem_singleton] at hc
      subst hc
      have h2 := hhead q hq
      simp only [assignmentOfRecord, segRecord]
      exact h2

theorem update_daf_ok_WF_Inv {st st1 : Store} {id : Nat} {t : Int} {b : Bool}
    {out : Option Assignment}
    (hwf : WF st) (hinv : Inv st)
    (h : update_assignment_daf st id t b = .ok (st1, out)) : WF st1 ∧ Inv st1 := by
  cases hget : get_assignment st id with
  | none =>
    rw [update_daf_notfound hget] at h
    cases h; exact ⟨hwf, hinv⟩
  | some record =>
    obtain ⟨hmem, hid⟩ := get_assignment_mem hget
    by_cases hin : t < record.daf ∨ t > record.daf_end
    · rw [update_daf_oor hget hin] at h; cases h; exact ⟨hwf, hinv⟩
    by_cases heq : record.daf = record.daf_end
    · rw [update_daf_single hget hin heq] at h
      exact update_assignment_ok_WF_Inv hwf hinv h
    by_cases hl : record.learned = b
    · rw [update_daf_idem_eq hget hin heq hl] at h; cases h; exact ⟨hwf, hinv⟩
    rw [update_daf_split_eq hget hin heq hl] at h
    simp only [] at h
    push_neg at hin
    have hwfF := filter_WF (fun r => r.id != id) hwf
    have hinvF := filter_Inv (fun r => r.id != id) hinv
    by_cases hlt1 : record.daf < t
    · by_cases hlt2 : t < record.daf_end
      · rw [if_pos hlt1, if_pos hlt2] at h
        simp only [List.cons_append, List.nil_append] at h
        cases h
        refine foldl_insert_seg_WF_Inv record _ _ hwfF hinvF ?_ ?_
        · intro s hs
          simp only [List.mem_cons, List.mem_singleton, List.not_mem_nil] at hs
          rcases hs with rfl | rfl | rfl | hs
          · exact fresh_seg_filter hinv hmem hid (by simp) (by simp <;> omega)
          · exact fresh_seg_filter hinv hmem hid (by simp <;> omega) (by simp <;> omega)
          · exact fresh_seg_filter hinv hmem hid (by simp <;> omega) (by simp)
          · cases hs
        · simp [List.pairwise_cons] <;> omega
      · have ht2 : t = record.daf_end := by omega
        rw [if_pos hlt1, if_neg hlt2] at h
        simp only [List.cons_append, List.nil_append, List.append_nil] at h
        cases h
        refine foldl_insert_seg_WF_Inv record _ _ hwfF hinvF ?_ ?_
        · intro s hs
          simp only [List.mem_cons, List.mem_singleton, List.not_mem_nil] at hs
          rcases hs with rfl | rfl | hs
          · exact fresh_seg_filter hinv hmem hid (by simp) (by simp <;> omega)
          · exact fresh_seg_filter hinv hmem hid (by simp <;> omega) (by simp <;> omega)
          · cases hs
        · simp [List.pairwise_cons] <;> omega
    · have ht1 : t = record.daf := by omega
      have hlt2 : t < record.daf_end := by omega
      rw [if_neg hlt1, if_pos hlt2] at h
      simp only [List.cons_append, List.nil_append] at h
      cases h
      refine foldl_insert_seg_WF_Inv record _ _ hwfF hinvF ?_ ?_
      · intro s hs
        simp only [List.mem_cons, List.mem_singleton, List.not_mem_nil] at hs
        rcases hs with rfl | rfl | hs
        · exact fresh_seg_filter hinv hmem hid (by simp <;> omega) (by simp <;> omega)
        · exact fresh_seg_filter hinv hmem hid (by simp <;> omega) (by simp)
        · cases hs
      · simp [List.pairwise_cons] <;> omega

theorem shrink_WF_Inv {st : Store} {id : Nat} {record A : Assignment}
    (hwf : WF st) (hinv : Inv st) (hmem : record ∈ st.rows) (hid : record.id = id)
    (hAid : A.id = id) (hAm : A.masechet = record.masechet)
    (hAd : record.daf ≤ A.daf) (hAe : A.daf_end ≤ record.daf_end) :
    WF { st with rows := st.rows.map fun r => if r.id = id then A else r }
      ∧ Inv { st with rows := st.rows.map fun r => if r.id = id then A else r } := by
  refine ⟨replace_row_WF hwf hAid, replace_row_Inv hinv hAid ?_⟩
  intro c hc hm hcid
  have hdisj := hinv c hc record hmem (hm.trans hAm) (by rw [hid]; exact hcid)
  unfold RangesDisjoint at hdisj ⊢
  omega

theorem delete_fold_conv (record : Assignment) (st0 : Store) (a b c d : Int) :
    [(a, b), (c, d)].foldl
        (fun s seg => (insertRow s (segRecord record (seg.1, seg.2, record.learned))).1)
        st0
      = [(a, b, record.learned), (c, d, record.learned)].foldl
          (fun s seg => (insertRow s (segRecord record seg)).1) st0 := rfl

theorem delete_daf_WF_Inv {st st1 : Store} {id : Nat} {t : Int} {bb : Bool}
    (hwf : WF st) (hinv : Inv st)
    (h : delete_assignment_daf st id t = (st1, bb)) : WF st1 ∧ Inv st1 := by
  cases hget : get_assignment st id with
  | none => rw [delete_daf_notfound hget] at h; cases h; exact ⟨hwf, hinv⟩
  | some record =>
    obtain ⟨hmem, hid⟩ := get_assignment_mem hget
    by_cases hin : t < record.daf ∨ t > record.daf_end
    · rw [delete_daf_oor hget hin] at h; cases h; exact ⟨hwf, hinv⟩
    by_cases heq : record.daf = record.daf_end
    · rw [delete_daf_whole hget hin heq] at h
      cases h
      exact ⟨filter_WF _ hwf, filter_Inv _ hinv⟩
    by_cases ht1 : t = record.daf
    · rw [delete_daf_left hget hin heq ht1] at h
      cases h
      have hmapeq : (st.rows.map fun r =>
            if r.id = id then { r with daf := record.daf + 1, daf_end := record.daf_end }
            else r)
          = st.rows.map fun r =>
            if r.id = id then
              { record with daf := record.daf + 1, daf_end := record.daf_end }
            else r := by
        refine List.map_congr_left fun x hx => ?_
        by_cases hxid : x.id = id
        · have hxr : x = record := mem_id_unique hwf hx hmem (by rw [hxid, hid])
          rw [hxr]
        · simp [hxid]
      rw [hmapeq]
      exact shrink_WF_Inv hwf hinv hmem hid hid rfl (by simp) (le_refl _)
    by_cases ht2 : t = record.daf_end
    · rw [delete_daf_right hget hin heq ht1 ht2] at h
      cases h
      have hmapeq : (st.rows.map fun r =>
            if r.id = id then { r with daf_end := record.daf_end - 1 } else r)
          = st.rows.map fun r =>
            if r.id = id then { record with daf_end := record.daf_end - 1 } else r := by
        refine List.map_congr_left fun x hx => ?_
        by_cases hxid : x.id = id
        · have hxr : x = record := mem_id_unique hwf hx hmem (by rw [hxid, hid])
          rw [hxr]
        · simp [hxid]
      rw [hmapeq]
      exact shrink_WF_Inv hwf hinv hmem hid hid rfl (le_refl _) (by simp)
    · rw [delete_daf_interior hget hin heq ht1 ht2] at h
      cases h
      rw [delete_fold_conv]
      push_neg at hin
      refine foldl_insert_seg_WF_Inv record _ _
        (filter_WF _ hwf) (filter_Inv _ hinv) ?_ ?_
      · intro s hs
        simp only [List.mem_cons, List.mem_singleton, List.not_mem_nil] at hs
        rcases hs with rfl | rfl | hs
        · exact fresh_seg_filter hinv hmem hid (by simp) (by simp <;> omega)
        · exact fresh_seg_filter hinv hmem hid (by simp <;> omega) (by simp)
        · cases hs
      · simp [List.pairwise_cons] <;> omega

theorem create_assignments_ok_WF_Inv {st st1 : Store} {ps : List Payload}
    {out : List Assignment}
    (hwf : WF st) (hinv : Inv st)
    (h : create_assignments st ps = .ok (st1, out)) : WF st1 ∧ Inv st1 := by
  unfold create_assignments at h
  split at h
  · cases h
  · split at h
    · cases h
    next records hp =>
      split at h
      next hv => exact create_loop_ok_WF_Inv records st st1 out hwf hinv h
      next hv => cases h

theorem create_assignment_ok_WF_Inv {st st1 : Store} {p : Payload}
    {out : Option Assignment}
    (hwf : WF st) (hinv : Inv st)
    (h : create_assignment st p = .ok (st1, out)) : WF st1 ∧ Inv st1 := by
  unfold create_assignment at h
  split at h
  · cases h
  next st2 records h2 =>
    cases h
    exact create_assignments_ok_WF_Inv hwf hinv h2

theorem applyOp_WF_Inv {st : Store} (op : Op) (hwf : WF st) (hinv : Inv st) :
    WF (applyOp st op) ∧ Inv (applyOp st op) := by
  cases op with
  | createOne p =>
    simp only [applyOp]
    split
    next st1 out h => exact create_assignment_ok_WF_Inv hwf hinv h
    next => exact ⟨hwf, hinv⟩
  | createMany ps =>
    simp only [applyOp]
    split
    next st1 out h => exact create_assignments_ok_WF_Inv hwf hinv h
    next => exact ⟨hwf, hinv⟩
  | updateWhole id p =>
    simp only [applyOp]
    split
    next st1 out h => exact update_assignment_ok_WF_Inv hwf hinv h
    next => exact ⟨hwf, hinv⟩
  | updateUnit id t b =>
    simp only [applyOp]
    split
    next st1 out h => exact update_daf_ok_WF_Inv hwf hinv h
    next => exact ⟨hwf, hinv⟩
  | deleteWhole id =>
    exact ⟨filter_WF _ hwf, filter_Inv _ hinv⟩
  | deleteUnit id t =>
    exact delete_daf_WF_Inv hwf hinv rfl
  | replaceAll ps =>
    simp only [applyOp]
    split
    next st1 out h => exact replace_ok_WF_Inv h
    next => exact ⟨hwf, hinv⟩

theorem runOps_WF_Inv : ∀ (ops : List Op) (st : Store), WF st → Inv st →
    WF (ops.foldl applyOp st) ∧ Inv (ops.foldl applyOp st)
  | [], _, hwf, hinv => ⟨hwf, hinv⟩
  | op :: ops, st, hwf, hinv => by
    rw [List.foldl_cons]
    obtain ⟨hwf2, hinv2⟩ := applyOp_WF_Inv op hwf hinv
    exact runOps_WF_Inv ops _ hwf2 hinv2

theorem emptyStore_WF : WF emptyStore := by
  constructor
  · intro a ha
    exact absurd ha (by simp [emptyStore])
  · simp [emptyStore]

theorem emptyStore_Inv : Inv emptyStore := by
  intro a ha
  exact absurd ha (by simp [emptyStore])

/-- C1: starting from the empty store, after any sequence of the core
operations (createOne/createMany, updateWhole, updateUnit, deleteWhole,
deleteUnit, replaceAll), any two rows of the resulting store that share
a masechet and have different ids have disjoint closed ranges. -/
theorem C1_section_non_overlap (ops : List Op) : Inv (runOps ops) :=
  (runOps_WF_Inv ops emptyStore emptyStore_WF emptyStore_Inv).2

/-- C2: the overlap test on insert and update is closed-interval
intersection: an existing row of the masechet collides with the
candidate `[s, e]` iff `NOT (daf_end < s OR daf > e)`; concretely, with
`[1,5]` persisted in section `A`, creating `[5,6]` raises `Overlap`
while creating the adjacent `[6,8]` succeeds. -/
theorem C2_overlap_closed_intervals (rows : List Assignment) (m : String)
    (s e : Int) :
    (has_overlap rows m s e none = true ↔
      ∃ r ∈ rows, r.masechet = m ∧ ¬(r.daf_end < s ∨ r.daf > e))
  ∧ create_assignment emptyStore payloadA15 = .ok (storeA15, some rowA15)
  ∧ create_assignment storeA15 payloadA56 = .error .overlap
  ∧ create_assignment storeA15 payloadA68
      = .ok ({ rows := [rowA15, rowA68], nextId := 3 }, some rowA68) := by
  refine ⟨?_, by rfl, by rfl, by rfl⟩
  rw [has_overlap_true_iff]
  constructor
  · rintro ⟨r, hr, h1, h2, -⟩
    exact ⟨r, hr, h1, h2⟩
  · rintro ⟨r, hr, h1, h2⟩
    exact ⟨r, hr, h1, h2, by simp⟩

/-- C7: with a target unit outside `[daf, daf_end]`, or an id that does
not resolve to a row, `update_assignment_daf` returns `None` and
`delete_assignment_daf` returns `False`, and both leave the store
unchanged. -/
theorem C7_out_of_range_noop {st : Store} {id : Nat} {t : Int} (b : Bool)
    (h : get_assignment st id = none
       ∨ ∃ r, get_assignment st id = some r ∧ (t < r.daf ∨ t > r.daf_end)) :
    update_assignment_daf st id t b = .ok (st, none)
      ∧ delete_assignment_daf st id t = (st, false) := by
  rcases h with h | ⟨r, hget, hoor⟩
  · exact ⟨update_daf_notfound h, delete_daf_notfound h⟩
  · exact ⟨update_daf_oor hget hoor, delete_daf_oor hget hoor⟩

theorem C7_out_of_range_noop_witness :
    update_assignment_daf storeB25 1 9 true = .ok (storeB25, none)
      ∧ delete_assignment_daf storeB25 1 9 = (storeB25, false) :=
  C7_out_of_range_noop true (Or.inr ⟨rowB25, by rfl, by decide⟩)

theorem covering_pred_false_filter {st : Store} {record : Assignment}
    {id : Nat} {t : Int}
    (hinv : Inv st) (hmem : record ∈ st.rows) (hid : record.id = id)
    (hd1 : record.daf ≤ t) (hd2 : t ≤ record.daf_end) :
    ∀ x ∈ st.rows.filter (fun r => r.id != id),
      (x.masechet == record.masechet && decide (x.daf ≤ t)
        && decide (t ≤ x.daf_end)) = false := by
  intro x hx
  rcases List.mem_filter.1 hx with ⟨hx1, hx2⟩
  have hxid : x.id ≠ record.id := by rw [hid]; simpa using hx2
  by_cases hm : x.masechet = record.masechet
  · have hdisj := hinv x hx1 record hmem hm hxid
    unfold RangesDisjoint at hdisj
    rcases hdisj with hc | hc
    · have hdec : decide (t ≤ x.daf_end) = false := decide_eq_false (by omega)
      simp [hdec]
    · have hdec : decide (x.daf ≤ t) = false := decide_eq_false (by omega)
      simp [hdec]
  · simp [hm]

theorem ok_pair_cov {S T : Store} {m : String} {t : Int} {A : Assignment}
    (hST : S = T) (hcov : get_assignment_covering T m t = some A) :
    (Except.ok (S, get_assignment_covering S m t)
        : Except StoreError (Store × Option Assignment))
      = .ok (T, some A) := by
  subst hST
  rw [hcov]

theorem update_daf_split_mid {st : Store} {id : Nat} {t : Int} {b : Bool}
    {r : Assignment}
    (hinv : Inv st)
    (hget : get_assignment st id = some r)
    (hlt1 : r.daf < t) (hlt2 : t < r.daf_end) (hb : r.learned ≠ b) :
    update_assignment_daf st id t b =
      .ok ({ rows := st.rows.filter (fun q => q.id != id)
               ++ [{ r with id := st.nextId, daf_end := t - 1 },
                   { r with id := st.nextId + 1, daf := t, daf_end := t, learned := b },
                   { r with id := st.nextId + 2, daf := t + 1 }],
             nextId := st.nextId + 3 },
           some { r with
                  id := st.nextId + 1, daf := t, daf_end := t, learned := b }) := by
  obtain ⟨hmem, hid⟩ := get_assignment_mem hget
  rw [update_daf_split_eq hget (by omega) (by omega) hb]
  simp only [if_pos hlt1, if_pos hlt2, List.cons_append, List.nil_append,
    List.foldl_cons, List.foldl_nil]
  refine ok_pair_cov ?_ ?_
  · simp [insertRow, assignmentOfRecord, segRecord, List.append_assoc,
      Nat.add_assoc]
  · unfold get_assignment_covering
    rw [find?_append_of_left_none
      (covering_pred_false_filter hinv hmem hid (by omega) (by omega))]
    rw [List.find?_cons_of_neg _ (by simp <;> omega),
      List.find?_cons_of_pos _ (by simp)]

theorem update_daf_split_left {st : Store} {id : Nat} {t : Int} {b : Bool}
    {r : Assignment}
    (hinv : Inv st)
    (hget : get_assignment st id = some r)
    (ht1 : t = r.daf) (hlt2 : t < r.daf_end) (hb : r.learned ≠ b) :
    update_assignment_daf st id t b =
      .ok ({ rows := st.rows.filter (fun q => q.id != id)
               ++ [{ r with id := st.nextId, daf := t, daf_end := t, learned := b },
                   { r with id := st.nextId + 1, daf := t + 1 }],
             nextId := st.nextId + 2 },
           some { r with
                  id := st.nextId, daf := t, daf_end := t, learned := b }) := by
  obtain ⟨hmem, hid⟩ := get_assignment_mem hget
  rw [update_daf_split_eq hget (by omega) (by omega) hb]
  rw [if_neg (by omega), if_pos hlt2]
  simp only [List.cons_append, List.nil_append, List.foldl_cons, List.foldl_nil]
  refine ok_pair_cov ?_ ?_
  · simp [insertRow, assignmentOfRecord, segRecord, List.append_assoc,
      Nat.add_assoc]
  · unfold get_assignment_covering
    rw [find?_append_of_left_none
      (covering_pred_false_filter hinv hmem hid (by omega) (by omega))]
    rw [List.find?_cons_of_pos _ (by simp)]

theorem update_daf_split_right {st : Store} {id : Nat} {t : Int} {b : Bool}
    {r : Assignment}
    (hinv : Inv st)
    (hget : get_assignment st id = some r)
    (hlt1 : r.daf < t) (ht2 : t = r.daf_end) (hb : r.learned ≠ b) :
    update_assignment_daf st id t b =
      .ok ({ rows := st.rows.filter (fun q => q.id != id)
               ++ [{ r with id := st.nextId, daf_end := t - 1 },
                   { r with id := st.nextId + 1, daf := t, daf_end := t, learned := b }],
             nextId := st.nextId + 2 },
           some { r with
                  id := st.nextId + 1, daf := t, daf_end := t, learned := b }) := by
  obtain ⟨hmem, hid⟩ := get_assignment_mem hget
  rw [update_daf_split_eq hget (by omega) (by omega) hb]
  rw [if_pos hlt1, if_neg (by omega)]
  simp only [List.cons_append, List.nil_append, List.append_nil,
    List.foldl_cons, List.foldl_nil]
  refine ok_pair_cov ?_ ?_
  · simp [insertRow, assignmentOfRecord, segRecord, List.append_assoc,
      Nat.add_assoc]
  · unfold get_assignment_covering
    rw [find?_append_of_left_none
      (covering_pred_false_filter hinv hmem hid (by omega) (by omega))]
    rw [List.find?_cons_of_neg _ (by simp <;> omega),
      List.find?_cons_of_pos _ (by simp)]

/-- C3: mark-unit on a record with `daf < daf_end`, an in-range target
`t` and a different learned flag deletes the original row and inserts
exactly the segments `[daf, t-1]` with the old flag (only when
`daf < t`), `[t, t]` with the new flag (always), and `[t+1, daf_end]`
with the old flag (only when `t < daf_end`), all inheriting every other
field; the call returns the `[t, t]` replacement row. -/
theorem C3_mark_unit_split {st : Store} {id : Nat} {t : Int} {b : Bool}
    {r : Assignment}
    (hwf : WF st) (hinv : Inv st)
    (hget : get_assignment st id = some r)
    (hlt : r.daf < r.daf_end) (h1 : r.daf ≤ t) (h2 : t ≤ r.daf_end)
    (hb : r.learned ≠ b) :
    ∃ st3,
      update_assignment_daf st id t b =
        .ok (st3, some { r with
              id := if r.daf < t then st.nextId + 1 else st.nextId,
              daf := t, daf_end := t, learned := b })
      ∧ st3.rows
          = st.rows.filter (fun q => q.id != id)
            ++ ((if r.daf < t then [{ r with id := st.nextId, daf_end := t - 1 }]
                 else [])
                ++ [{ r with
                      id := if r.daf < t then st.nextId + 1 else st.nextId,
                      daf := t, daf_end := t, learned := b }]
                ++ (if t < r.daf_end then
                      [{ r with
                         id := if r.daf < t then st.nextId + 2 else st.nextId + 1,
                         daf := t + 1 }]
                    else []))
      ∧ ∀ q ∈ st3.rows, q.id ≠ id := by
  obtain ⟨hmem, hid⟩ := get_assignment_mem hget
  have hidlt : id < st.nextId := by
    have h3 := hwf.1 r hmem
    omega
  by_cases hlt1 : r.daf < t
  · by_cases hlt2 : t < r.daf_end
    · simp only [if_pos hlt1, if_pos hlt2]
      rw [update_daf_split_mid hinv hget hlt1 hlt2 hb]
      refine ⟨_, rfl, by simp, ?_⟩
      intro q hq
      rcases List.mem_append.1 hq with hq | hq
      · rcases List.mem_filter.1 hq with ⟨-, hq2⟩
        simpa using hq2
      · simp only [List.mem_cons, List.mem_singleton, List.not_mem_nil] at hq
        rcases hq with rfl | rfl | rfl | hq
        · simp; omega
        · simp; omega
        · simp; omega
        · cases hq
    · have ht2 : t = r.daf_end := by omega
      simp only [if_pos hlt1, if_neg hlt2]
      rw [update_daf_split_right hinv hget hlt1 ht2 hb]
      refine ⟨_, rfl, by simp, ?_⟩
      intro q hq
      rcases List.mem_append.1 hq with hq | hq
      · rcases List.mem_filter.1 hq with ⟨-, hq2⟩
        simpa using hq2
      · simp only [List.mem_cons, List.mem_singleton, List.not_mem_nil] at hq
        rcases hq with rfl | rfl | hq
        · simp; omega
        · simp; omega
        · cases hq
  · have ht1 : t = r.daf := by omega
    have hlt2 : t < r.daf_end := by omega
    simp only [if_neg hlt1, if_pos hlt2]
    rw [update_daf_split_left hinv hget ht1 hlt2 hb]
    refine ⟨_, rfl, by simp, ?_⟩
    intro q hq
    rcases List.mem_append.1 hq with hq | hq
    · rcases List.mem_filter.1 hq with ⟨-, hq2⟩
      simpa using hq2
    · simp only [List.mem_cons, List.mem_singleton, List.not_mem_nil] at hq
      rcases hq with rfl | rfl | hq
      · simp; omega
      · simp; omega
      · cases hq

theorem C3_mark_unit_split_witness :
    ∃ st3,
      update_assignment_daf storeB25 1 3 true
        = .ok (st3, some { rowB25 with
                           id := 3, daf := 3, daf_end := 3, learned := true })
      ∧ st3.rows = [{ rowB25 with id := 2, daf_end := 2 },
                    { rowB25 with id := 3, daf := 3, daf_end := 3, learned := true },
                    { rowB25 with id := 4, daf := 4 }]
      ∧ ∀ q ∈ st3.rows, q.id ≠ 1 :=
  C3_mark_unit_split (by decide) (by decide)
    (show get_assignment storeB25 1 = some rowB25 from rfl)
    (by decide) (by decide) (by decide) (by decide)

/-- C4: remove-unit with an in-range target, on a store satisfying the
section non-overlap invariant (so the schema's `UNIQUE` constraint
cannot interfere): a single-unit record is deleted outright; a
boundary target shrinks the record in place under the same identity
with all other fields kept; an interior target deletes the record and
inserts the two remaining segments under fresh identities, inheriting
every other field including `learned`, and no row keeps the original
identity. -/
theorem C4_remove_unit {st : Store} {id : Nat} {t : Int} {r : Assignment}
    (hwf : WF st) (hinv : Inv st)
    (hget : get_assignment st id = some r)
    (h1 : r.daf ≤ t) (h2 : t ≤ r.daf_end) :
    (r.daf = r.daf_end →
        delete_assignment_daf st id t
          = ({ st with rows := st.rows.filter (fun q => q.id != id) }, true))
  ∧ (r.daf < r.daf_end → t = r.daf →
        delete_assignment_daf st id t
          = ({ st with rows := st.rows.map fun q =>
                if q.id = id then { r with daf := t + 1 } else q }, true))
  ∧ (r.daf < r.daf_end → t = r.daf_end →
        delete_assignment_daf st id t
          = ({ st with rows := st.rows.map fun q =>
                if q.id = id then { r with daf_end := t - 1 } else q }, true))
  ∧ (r.daf < t → t < r.daf_end →
        ∃ st4, delete_assignment_daf st id t = (st4, true)
          ∧ st4.rows = st.rows.filter (fun q => q.id != id)
              ++ [{ r with id := st.nextId, daf_end := t - 1 },
                  { r with id := st.nextId + 1, daf := t + 1 }]
          ∧ st4.nextId = st.nextId + 2
          ∧ ∀ q ∈ st4.rows, q.id ≠ id) := by
  obtain ⟨hmem, hid⟩ := get_assignment_mem hget
  have hany : st.rows.any (fun q => q.id == id) = true :=
    List.any_eq_true.2 ⟨r, hmem, by simp [hid]⟩
  have hidlt : id < st.nextId := by
    have h3 := hwf.1 r hmem
    omega
  refine ⟨?_, ?_, ?_, ?_⟩
  · intro heq
    rw [delete_daf_whole hget (by omega) heq, hany]
  · intro hlt hteq
    rw [delete_daf_left hget (by omega) (by omega) hteq]
    have hmapeq : (st.rows.map fun q =>
          if q.id = id then { q with daf := r.daf + 1, daf_end := r.daf_end }
          else q)
        = st.rows.map fun q => if q.id = id then { r with daf := t + 1 } else q := by
      refine List.map_congr_left fun x hx => ?_
      by_cases hxid : x.id = id
      · have hxr : x = r := mem_id_unique hwf hx hmem (by rw [hxid, hid])
        rw [if_pos hxid, if_pos hxid, hxr, hteq]
      · rw [if_neg hxid, if_neg hxid]
    rw [hmapeq]
  · intro hlt hteq
    rw [delete_daf_right hget (by omega) (by omega) (by omega) hteq]
    have hmapeq : (st.rows.map fun q =>
          if q.id = id then { q with daf_end := r.daf_end - 1 } else q)
        = st.rows.map fun q => if q.id = id then { r with daf_end := t - 1 } else q := by
      refine List.map_congr_left fun x hx => ?_
      by_cases hxid : x.id = id
      · have hxr : x = r := mem_id_unique hwf hx hmem (by rw [hxid, hid])
        rw [if_pos hxid, if_pos hxid, hxr, hteq]
      · rw [if_neg hxid, if_neg hxid]
    rw [hmapeq]
  · intro hlt1 hlt2
    rw [delete_daf_interior hget (by omega) (by omega) (by omega) (by omega)]
    simp only [List.foldl_cons, List.foldl_nil]
    refine ⟨_, rfl, ?_, ?_, ?_⟩
    · simp [insertRow, assignmentOfRecord, segRecord, List.append_assoc]
    · simp [insertRow, Nat.add_assoc]
    · intro q hq
      simp only [insertRow, assignmentOfRecord, segRecord] at hq
      rcases List.mem_append.1 hq with hq | hq
      · rcases List.mem_append.1 hq with hq | hq
        · rcases List.mem_filter.1 hq with ⟨-, hq2⟩
          simpa using hq2
        · simp only [List.mem_singleton] at hq
          subst hq
          simp
          omega
      · simp only [List.mem_singleton] at hq
        subst hq
        simp
        omega

theorem C4_remove_unit_witness :
    delete_assignment_daf storeB25 1 2
      = ({ rows := [{ rowB25 with daf := 3 }], nextId := 2 }, true) :=
  (C4_remove_unit (by decide) (by decide)
      (show get_assignment storeB25 1 = some rowB25 from rfl)
      (by decide) (by decide)).2.1
    (by decide) (by decide)

theorem parse_learned_only {r : Assignment} {b : Bool} (htr : Trimmed r)
    (hd : r.daf ≤ r.daf_end) :
    parse_payload { learned := some b } false (some r)
      = .ok { masechet := r.masechet, name := r.name, daf := r.daf,
              daf_end := r.daf_end, dedication := r.dedication,
              learned := b, is_full_masechet := r.is_full_masechet } := by
  obtain ⟨h1, h2, h3⟩ := htr
  have hnd : ¬(r.daf_end < r.daf) := by omega
  simp [parse_payload, h1, h2, h3, hnd]

theorem map_replace_self {st : Store} {id : Nat} {r : Assignment}
    (hwf : WF st) (hmem : r ∈ st.rows) (hid : r.id = id) :
    st.rows.map (fun x => if x.id = id then r else x) = st.rows := by
  conv_rhs => rw [← List.map_id st.rows]
  refine List.map_congr_left fun x hx => ?_
  by_cases hxid : x.id = id
  · rw [if_pos hxid, mem_id_unique hwf hx hmem (by rw [hxid, hid])]
    rfl
  · rw [if_neg hxid]
    rfl

theorem inv_no_self_overlap {st : Store} {id : Nat} {r : Assignment}
    (hinv : Inv st) (hmem : r ∈ st.rows) (hid : r.id = id) :
    has_overlap st.rows r.masechet r.daf r.daf_end (some id) = false := by
  rw [Bool.eq_false_iff, ne_eq, has_overlap_true_iff]
  rintro ⟨c, hc, hm, hno, hex⟩
  have hcid : c.id ≠ id := hex id rfl
  have hdisj := hinv c hc r hmem hm (by rw [hid]; exact hcid)
  unfold RangesDisjoint at hdisj
  tauto

/-- C6: mark-unit with the learned flag the record already carries is a
no-op: the same record comes back under the same identity, no split
happens, and the store is unchanged. -/
theorem C6_mark_unit_idempotent {st : Store} {id : Nat} {t : Int} {b : Bool}
    {r : Assignment}
    (hwf : WF st) (hinv : Inv st) (htr : Trimmed r)
    (hget : get_assignment st id = some r)
    (h1 : r.daf ≤ t) (h2 : t ≤ r.daf_end) (hb : r.learned = b) :
    update_assignment_daf st id t b = .ok (st, some r) := by
  obtain ⟨hmem, hid⟩ := get_assignment_mem hget
  by_cases heq : r.daf = r.daf_end
  · rw [update_daf_single hget (by omega) heq]
    have hparse := parse_learned_only (b := b) htr (by omega)
    have hov := inv_no_self_overlap hinv hmem hid
    rw [update_assignment_ok_eq hget hparse hov]
    have hAr : assignmentOfRecord id
        { masechet := r.masechet, name := r.name, daf := r.daf,
          daf_end := r.daf_end, dedication := r.dedication,
          learned := b, is_full_masechet := r.is_full_masechet } = r := by
      rw [← hid, ← hb]
      rfl
    rw [hAr, map_replace_self hwf hmem hid]
  · rw [update_daf_idem_eq hget (by omega) heq hb]

theorem C6_mark_unit_idempotent_witness :
    update_assignment_daf storeB25 1 3 false = .ok (storeB25, some rowB25) :=
  C6_mark_unit_idempotent (by decide) (by decide) (by decide)
    (show get_assignment storeB25 1 = some rowB25 from rfl)
    (by decide) (by decide) (by decide)

theorem rows_mk (l : List Assignment) (n : Nat) : (Store.mk l n).rows = l := rfl

theorem coverageAt_def (st : Store) (m : String) (u : Int) :
    coverageAt st m u ↔ coversIn st.rows m u := Iff.rfl

theorem coversIn_append {l1 l2 : List Assignment} {m : String} {u : Int} :
    coversIn (l1 ++ l2) m u ↔ coversIn l1 m u ∨ coversIn l2 m u := by
  unfold coversIn
  constructor
  · rintro ⟨q, hq, hp⟩
    rcases List.mem_append.1 hq with hq | hq
    · exact Or.inl ⟨q, hq, hp⟩
    · exact Or.inr ⟨q, hq, hp⟩
  · rintro (⟨q, hq, hp⟩ | ⟨q, hq, hp⟩)
    · exact ⟨q, List.mem_append.2 (Or.inl hq), hp⟩
    · exact ⟨q, List.mem_append.2 (Or.inr hq), hp⟩

theorem coversIn_decomp {st : Store} {id : Nat} {r : Assignment}
    (hwf : WF st) (hmem : r ∈ st.rows) (hid : r.id = id) (u : Int) :
    coversIn st.rows r.masechet u ↔
      (coversIn (st.rows.filter (fun q => q.id != id)) r.masechet u
        ∨ (r.daf ≤ u ∧ u ≤ r.daf_end)) := by
  unfold coversIn
  constructor
  · rintro ⟨q, hq, hm, hu1, hu2⟩
    by_cases hqid : q.id = id
    · have hqr : q = r := mem_id_unique hwf hq hmem (by rw [hqid, hid])
      subst hqr
      exact Or.inr ⟨hu1, hu2⟩
    · exact Or.inl ⟨q, List.mem_filter.2 ⟨hq, by simpa using hqid⟩, hm, hu1, hu2⟩
  · rintro (⟨q, hq, hp⟩ | ⟨hu1, hu2⟩)
    · exact ⟨q, List.mem_of_mem_filter hq, hp⟩
    · exact ⟨r, hmem, rfl, hu1, hu2⟩

theorem coversIn_filter_not_target {st : Store} {id : Nat} {r : Assignment}
    {t : Int}
    (hinv : Inv st) (hmem : r ∈ st.rows) (hid : r.id = id)
    (hd1 : r.daf ≤ t) (hd2 : t ≤ r.daf_end) :
    ¬ coversIn (st.rows.filter (fun q => q.id != id)) r.masechet t := by
  rintro ⟨q, hq, hm, hu1, hu2⟩
  rcases List.mem_filter.1 hq with ⟨hq1, hq2⟩
  have hdisj := hinv q hq1 r hmem hm (by rw [hid]; simpa using hq2)
  unfold RangesDisjoint at hdisj
  omega

theorem coversIn_map_replace {st : Store} {id : Nat} {A r : Assignment}
    {m : String}
    (hmem : r ∈ st.rows) (hid : r.id = id) (u : Int) :
    coversIn (st.rows.map fun x => if x.id = id then A else x) m u ↔
      (coversIn (st.rows.filter (fun q => q.id != id)) m u
        ∨ (A.masechet = m ∧ A.daf ≤ u ∧ u ≤ A.daf_end)) := by
  unfold coversIn
  constructor
  · rintro ⟨q, hq, hm, hu1, hu2⟩
    rcases replace_row_mem hq with rfl | ⟨hq2, hqid⟩
    · exact Or.inr ⟨hm, hu1, hu2⟩
    · exact Or.inl ⟨q, List.mem_filter.2 ⟨hq2, by simpa using hqid⟩, hm, hu1, hu2⟩
  · rintro (⟨q, hq, hp⟩ | ⟨hm, hu1, hu2⟩)
    · rcases List.mem_filter.1 hq with ⟨hq1, hq2⟩
      refine ⟨q, List.mem_map.2 ⟨q, hq1, ?_⟩, hp⟩
      rw [if_neg (by simpa using hq2)]
    · exact ⟨A, List.mem_map.2 ⟨r, hmem, by rw [if_pos hid]⟩, hm, hu1, hu2⟩

theorem delete_left_store {st : Store} {id : Nat} {r : Assignment} {t : Int}
    (hwf : WF st) (hget : get_assignment st id = some r)
    (hin : ¬(t < r.daf ∨ t > r.daf_end)) (hne : r.daf ≠ r.daf_end)
    (ht : t = r.daf) :
    delete_assignment_daf st id t
      = ({ st with rows := st.rows.map fun q =>
            if q.id = id then { r with daf := r.daf + 1, daf_end := r.daf_end }
            else q }, true) := by
  obtain ⟨hmem, hid⟩ := get_assignment_mem hget
  rw [delete_daf_left hget hin hne ht]
  have hmapeq : (st.rows.map fun q =>
        if q.id = id then { q with daf := r.daf + 1, daf_end := r.daf_end }
        else q)
      = st.rows.map fun q =>
        if q.id = id then { r with daf := r.daf + 1, daf_end := r.daf_end }
        else q := by
    refine List.map_congr_left fun x hx => ?_
    by_cases hxid : x.id = id
    · rw [if_pos hxid, if_pos hxid, mem_id_unique hwf hx hmem (by rw [hxid, hid])]
    · rw [if_neg hxid, if_neg hxid]
  rw [hmapeq]

theorem delete_right_store {st : Store} {id : Nat} {r : Assignment} {t : Int}
    (hwf : WF st) (hget : get_assignment st id = some r)
    (hin : ¬(t < r.daf ∨ t > r.daf_end)) (hne : r.daf ≠ r.daf_end)
    (ht1 : t ≠ r.daf) (ht2 : t = r.daf_end) :
    delete_assignment_daf st id t
      = ({ st with rows := st.rows.map fun q =>
            if q.id = id then { r with daf_end := r.daf_end - 1 } else q }, true) := by
  obtain ⟨hmem, hid⟩ := get_assignment_mem hget
  rw [delete_daf_right hget hin hne ht1 ht2]
  have hmapeq : (st.rows.map fun q =>
        if q.id = id then { q with daf_end := r.daf_end - 1 } else q)
      = st.rows.map fun q =>
        if q.id = id then { r with daf_end := r.daf_end - 1 } else q := by
    refine List.map_congr_left fun x hx => ?_
    by_cases hxid : x.id = id
    · rw [if_pos hxid, if_pos hxid, mem_id_unique hwf hx hmem (by rw [hxid, hid])]
    · rw [if_neg hxid, if_neg hxid]
  rw [hmapeq]

/-- C5: span conservation on split: for an in-range target unit `t`,
mark-unit leaves the covered unit set of the record's masechet exactly
as it was, and remove-unit leaves it as it was minus exactly `{t}`;
the resulting store still satisfies the non-overlap invariant, so no
unit is duplicated across the resulting segments. -/
theorem C5_span_conservation {st : Store} {id : Nat} {t : Int} {r : Assignment}
    (b : Bool)
    (hwf : WF st) (hinv : Inv st) (htr : Trimmed r)
    (hget : get_assignment st id = some r)
    (h1 : r.daf ≤ t) (h2 : t ≤ r.daf_end) :
    (∃ st3 out, update_assignment_daf st id t b = .ok (st3, out)
       ∧ (∀ u : Int, coverageAt st3 r.masechet u ↔ coverageAt st r.masechet u)
       ∧ Inv st3)
  ∧ (∀ u : Int, coverageAt (delete_assignment_daf st id t).1 r.masechet u
       ↔ (coverageAt st r.masechet u ∧ u ≠ t))
  ∧ Inv (delete_assignment_daf st id t).1 := by
  obtain ⟨hmem, hid⟩ := get_assignment_mem hget
  refine ⟨?_, ?_, (delete_daf_WF_Inv hwf hinv rfl).2⟩
  · by_cases heq : r.daf = r.daf_end
    · rw [update_daf_single hget (by omega) heq]
      have hparse := parse_learned_only (b := b) htr (by omega)
      have hov := inv_no_self_overlap hinv hmem hid
      have hupd := update_assignment_ok_eq (p := { learned := some b })
        hget hparse hov
      rw [hupd]
      refine ⟨_, _, rfl, ?_, (update_assignment_ok_WF_Inv hwf hinv hupd).2⟩
      intro u
      simp only [coverageAt_def, rows_mk]
      rw [coversIn_map_replace hmem hid, coversIn_decomp hwf hmem hid]
      simp [assignmentOfRecord]
    · by_cases hb : r.learned = b
      · rw [update_daf_idem_eq hget (by omega) heq hb]
        exact ⟨st, some r, rfl, fun u => Iff.rfl, hinv⟩
      · by_cases hlt1 : r.daf < t
        · by_cases hlt2 : t < r.daf_end
          · have hupd := update_daf_split_mid hinv hget hlt1 hlt2 hb
            rw [hupd]
            refine ⟨_, _, rfl, ?_, (update_daf_ok_WF_Inv hwf hinv hupd).2⟩
            intro u
            simp only [coverageAt_def, rows_mk]
            rw [coversIn_append, coversIn_decomp hwf hmem hid]
            have hsegs : coversIn
                [{ r with id := st.nextId, daf_end := t - 1 },
                 { r with id := st.nextId + 1, daf := t, daf_end := t, learned := b },
                 { r with id := st.nextId + 2, daf := t + 1 }] r.masechet u
                ↔ (r.daf ≤ u ∧ u ≤ r.daf_end) := by
              simp [coversIn]
              omega
            rw [hsegs]
          · have ht2 : t = r.daf_end := by omega
            have hupd := update_daf_split_right hinv hget hlt1 ht2 hb
            rw [hupd]
            refine ⟨_, _, rfl, ?_, (update_daf_ok_WF_Inv hwf hinv hupd).2⟩
            intro u
            simp only [coverageAt_def, rows_mk]
            rw [coversIn_append, coversIn_decomp hwf hmem hid]
            have hsegs : coversIn
                [{ r with id := st.nextId, daf_end := t - 1 },
                 { r with id := st.nextId + 1, daf := t, daf_end := t, learned := b }]
                r.masechet u
                ↔ (r.daf ≤ u ∧ u ≤ r.daf_end) := by
              simp [coversIn]
              omega
            rw [hsegs]
        · have ht1 : t = r.daf := by omega
          have hlt2 : t < r.daf_end := by omega
          have hupd := update_daf_split_left hinv hget ht1 hlt2 hb
          rw [hupd]
          refine ⟨_, _, rfl, ?_, (update_daf_ok_WF_Inv hwf hinv hupd).2⟩
          intro u
          simp only [coverageAt_def, rows_mk]
          rw [coversIn_append, coversIn_decomp hwf hmem hid]
          have hsegs : coversIn
              [{ r with id := st.nextId, daf := t, daf_end := t, learned := b },
               { r with id := st.nextId + 1, daf := t + 1 }] r.masechet u
              ↔ (r.daf ≤ u ∧ u ≤ r.daf_end) := by
            simp [coversIn]
            omega
          rw [hsegs]
  · intro u
    by_cases heq : r.daf = r.daf_end
    · have hdel : (delete_assignment_daf st id t).1
          = { st with rows := st.rows.filter (fun q => q.id != id) } := by
        rw [delete_daf_whole hget (by omega) heq]
      rw [hdel]
      simp only [coverageAt_def, rows_mk]
      rw [coversIn_decomp hwf hmem hid]
      constructor
      · intro hcov
        refine ⟨Or.inl hcov, ?_⟩
        intro he
        exact coversIn_filter_not_target hinv hmem hid h1 h2 (he ▸ hcov)
      · rintro ⟨hcov | ⟨hu1, hu2⟩, hne⟩
        · exact hcov
        · exact (hne (by omega)).elim
    · by_cases ht1 : t = r.daf
      · have hdel : (delete_assignment_daf st id t).1
            = { st with rows := st.rows.map fun q =>
                if q.id = id then { r with daf := r.daf + 1, daf_end := r.daf_end }
                else q } := by
          rw [delete_left_store hwf hget (by omega) heq ht1]
        rw [hdel]
        simp only [coverageAt_def, rows_mk]
        rw [coversIn_map_replace hmem hid, coversIn_decomp hwf hmem hid]
        simp only [Assignment.mk.injEq]
        simp
        constructor
        · rintro (hcov | ⟨hu1, hu2⟩)
          · refine ⟨Or.inl hcov, ?_⟩
            intro he
            exact coversIn_filter_not_target hinv hmem hid h1 h2 (he ▸ hcov)
          · exact ⟨Or.inr ⟨by omega, by omega⟩, by omega⟩
        · rintro ⟨hcov | ⟨hu1, hu2⟩, hne⟩
          · exact Or.inl hcov
          · exact Or.inr ⟨by omega, by omega⟩
      · by_cases ht2 : t = r.daf_end
        · have hdel : (delete_assignment_daf st id t).1
              = { st with rows := st.rows.map fun q =>
                  if q.id = id then { r with daf_end := r.daf_end - 1 } else q } := by
            rw [delete_right_store hwf hget (by omega) heq ht1 ht2]
          rw [hdel]
          simp only [coverageAt_def, rows_mk]
          rw [coversIn_map_replace hmem hid, coversIn_decomp hwf hmem hid]
          simp
          constructor
          · rintro (hcov | ⟨hu1, hu2⟩)
            · refine ⟨Or.inl hcov, ?_⟩
              intro he
              exact coversIn_filter_not_target hinv hmem hid h1 h2 (he ▸ hcov)
            · exact ⟨Or.inr ⟨by omega, by omega⟩, by omega⟩
          · rintro ⟨hcov | ⟨hu1, hu2⟩, hne⟩
            · exact Or.inl hcov
            · exact Or.inr ⟨by omega, by omega⟩
        · have hdel : (delete_assignment_daf st id t).1
              = { rows := st.rows.filter (fun q => q.id != id)
                    ++ [{ r with id := st.nextId, daf_end := t - 1 },
                        { r with id := st.nextId + 1, daf := t + 1 }],
                  nextId := st.nextId + 2 } := by
            rw [delete_daf_interior hget (by omega) (by omega) ht1 ht2]
            simp [insertRow, assignmentOfRecord, segRecord, List.append_assoc,
              Nat.add_assoc]
          rw [hdel]
          simp only [coverageAt_def, rows_mk]
          rw [coversIn_append, coversIn_decomp hwf hmem hid]
          have hsegs : coversIn
              [{ r with id := st.nextId, daf_end := t - 1 },
               { r with id := st.nextId + 1, daf := t + 1 }] r.masechet u
              ↔ ((r.daf ≤ u ∧ u ≤ t - 1) ∨ (t + 1 ≤ u ∧ u ≤ r.daf_end)) := by
            simp [coversIn]
          rw [hsegs]
          constructor
          · rintro (hcov | hseg)
            · refine ⟨Or.inl hcov, ?_⟩
              intro he
              exact coversIn_filter_not_target hinv hmem hid h1 h2 (he ▸ hcov)
            · rcases hseg with ⟨hu1, hu2⟩ | ⟨hu1, hu2⟩
              · exact ⟨Or.inr ⟨by omega, by omega⟩, by omega⟩
              · exact ⟨Or.inr ⟨by omega, by omega⟩, by omega⟩
          · rintro ⟨hcov | ⟨hu1, hu2⟩, hne⟩
            · exact Or.inl hcov
            · exact Or.inr (by omega)

theorem C5_span_conservation_witness :
    (∃ st3 out, update_assignment_daf storeB25 1 3 true = .ok (st3, out)
       ∧ (∀ u : Int, coverageAt st3 rowB25.masechet u
            ↔ coverageAt storeB25 rowB25.masechet u)
       ∧ Inv st3)
  ∧ (∀ u : Int, coverageAt (delete_assignment_daf storeB25 1 3).1 rowB25.masechet u
       ↔ (coverageAt storeB25 rowB25.masechet u ∧ u ≠ 3))
  ∧ Inv (delete_assignment_daf storeB25 1 3).1 :=
  C5_span_conservation true (by decide) (by decide) (by decide)
    (show get_assignment storeB25 1 = some rowB25 from rfl)
    (by decide) (by decide)

theorem update_assignment_overlap_err {st : Store} {id : Nat} {p : Payload}
    {ex : Assignment} {record : Record}
    (hget : get_assignment st id = some ex)
    (hparse : parse_payload p false (some ex) = .ok record)
    (hov : has_overlap st.rows record.masechet record.daf record.daf_end
      (some id) = true) :
    update_assignment st id p = .error .overlap := by
  unfold update_assignment
  simp only [hget, hparse, hov, if_true]

theorem parse_retention {p : Payload} {ex : Assignment} {record : Record}
    (htr : Trimmed ex)
    (hp : parse_payload p false (some ex) = .ok record) :
    (p.masechet = none → record.masechet = ex.masechet)
  ∧ (p.name = none → record.name = ex.name)
  ∧ (p.daf = none → record.daf = ex.daf)
  ∧ (p.daf_end = none → record.daf_end = ex.daf_end)
  ∧ (p.dedication = none → record.dedication = ex.dedication)
  ∧ (p.learned = none → record.learned = ex.learned)
  ∧ (p.is_full_masechet = none → record.is_full_masechet = ex.is_full_masechet) := by
  refine ⟨?_, ?_, ?_, ?_, ?_, ?_, ?_⟩
  · intro hnone
    unfold parse_payload at hp
    rw [hnone] at hp
    simp only [Option.map_some', Option.getD_some, Bool.false_eq_true, false_and,
      if_false] at hp
    split at hp
    · cases hp
    · split at hp
      · cases hp
      · injection hp with h
        rw [← h]
        exact htr.1
  · intro hnone
    unfold parse_payload at hp
    rw [hnone] at hp
    simp only [Option.map_some', Option.getD_some, Bool.false_eq_true, false_and,
      if_false] at hp
    split at hp
    · cases hp
    · split at hp
      · cases hp
      · injection hp with h
        rw [← h]
        exact htr.2.1
  · intro hnone
    unfold parse_payload at hp
    rw [hnone] at hp
    simp only [Option.map_some', Option.getD_some, Bool.false_eq_true, false_and,
      if_false] at hp
    split at hp
    · cases hp
    · injection hp with h
      rw [← h]
  · intro hnone
    unfold parse_payload at hp
    rw [hnone] at hp
    simp only [Option.map_some', Option.getD_some, Bool.false_eq_true, false_and,
      if_false] at hp
    split at hp
    · cases hp
    · split at hp
      · cases hp
      · injection hp with h
        rw [← h]
  · intro hnone
    unfold parse_payload at hp
    rw [hnone] at hp
    simp only [Option.map_some', Option.getD_some, Bool.false_eq_true, false_and,
      if_false] at hp
    split at hp
    · cases hp
    · split at hp
      · cases hp
      · injection hp with h
        rw [← h]
        exact htr.2.2
  · intro hnone
    unfold parse_payload at hp
    rw [hnone] at hp
    simp only [Option.map_some', Option.getD_some, Bool.false_eq_true, false_and,
      if_false] at hp
    split at hp
    · cases hp
    · split at hp
      · cases hp
      · injection hp with h
        rw [← h]
  · intro hnone
    unfold parse_payload at hp
    rw [hnone] at hp
    simp only [Option.map_some', Option.getD_some, Bool.false_eq_true, false_and,
      if_false] at hp
    split at hp
    · cases hp
    · split at hp
      · cases hp
      · injection hp with h
        rw [← h]

/-- C9: whole-record update merges the payload over the existing row:
every field absent from the payload keeps its prior value; the merged
range is re-checked for overlap against all other rows of the masechet
excluding the row itself (`exclude_id` = self); on success the merged
record is persisted under the same identity and returned; a missing id
yields `None`. -/
theorem C9_update_whole_merge {st : Store} {id : Nat} {p : Payload}
    {ex : Assignment}
    (hget : get_assignment st id = some ex) (htr : Trimmed ex) :
    (∀ (st0 : Store) (id0 : Nat) (p0 : Payload),
        get_assignment st0 id0 = none →
        update_assignment st0 id0 p0 = .ok (st0, none))
  ∧ ∀ record, parse_payload p false (some ex) = .ok record →
      ((p.masechet = none → record.masechet = ex.masechet)
        ∧ (p.name = none → record.name = ex.name)
        ∧ (p.daf = none → record.daf = ex.daf)
        ∧ (p.daf_end = none → record.daf_end = ex.daf_end)
        ∧ (p.dedication = none → record.dedication = ex.dedication)
        ∧ (p.learned = none → record.learned = ex.learned)
        ∧ (p.is_full_masechet = none →
            record.is_full_masechet = ex.is_full_masechet))
      ∧ (has_overlap st.rows record.masechet record.daf record.daf_end
            (some id) = true →
          update_assignment st id p = .error .overlap)
      ∧ (has_overlap st.rows record.masechet record.daf record.daf_end
            (some id) = false →
          update_assignment st id p =
            .ok ({ st with rows := st.rows.map fun x =>
                     if x.id = id then assignmentOfRecord id record else x },
                 some (assignmentOfRecord id record))) := by
  refine ⟨fun st0 id0 p0 h0 => update_assignment_notfound h0, ?_⟩
  intro record hp
  exact ⟨parse_retention htr hp,
    fun hov => update_assignment_overlap_err hget hp hov,
    fun hov => update_assignment_ok_eq hget hp hov⟩

theorem C9_update_whole_merge_witness :
    (∀ (st0 : Store) (id0 : Nat) (p0 : Payload),
        get_assignment st0 id0 = none →
        update_assignment st0 id0 p0 = .ok (st0, none))
  ∧ ∀ record, parse_payload payloadDed false (some rowB25) = .ok record →
      ((payloadDed.masechet = none → record.masechet = rowB25.masechet)
        ∧ (payloadDed.name = none → record.name = rowB25.name)
        ∧ (payloadDed.daf = none → record.daf = rowB25.daf)
        ∧ (payloadDed.daf_end = none → record.daf_end = rowB25.daf_end)
        ∧ (payloadDed.dedication = none → record.dedication = rowB25.dedication)
        ∧ (payloadDed.learned = none → record.learned = rowB25.learned)
        ∧ (payloadDed.is_full_masechet = none →
            record.is_full_masechet = rowB25.is_full_masechet))
      ∧ (has_overlap storeB25.rows record.masechet record.daf record.daf_end
            (some 1) = true →
          update_assignment storeB25 1 payloadDed = .error .overlap)
      ∧ (has_overlap storeB25.rows record.masechet record.daf record.daf_end
            (some 1) = false →
          update_assignment storeB25 1 payloadDed =
            .ok ({ storeB25 with rows := storeB25.rows.map fun x =>
                     if x.id = 1 then assignmentOfRecord 1 record else x },
                 some (assignmentOfRecord 1 record))) :=
  C9_update_whole_merge
    (show get_assignment storeB25 1 = some rowB25 from rfl) (by decide)

theorem parse_all_error_of_mem {ps : List Payload}
    (h : ∃ p ∈ ps, parse_payload p true none = .error .validationError) :
    ∃ e, parse_all ps = .error e := by
  induction ps with
  | nil => simp at h
  | cons q qs ih =>
    obtain ⟨p, hp, herr⟩ := h
    cases hq : parse_payload q true none with
    | error e => exact ⟨e, by unfold parse_all; rw [hq]⟩
    | ok rcd =>
      rcases List.mem_cons.1 hp with rfl | hp2
      · rw [hq] at herr; cases herr
      · obtain ⟨e, he⟩ := ih ⟨p, hp2, herr⟩
        refine ⟨e, ?_⟩
        unfold parse_all
        rw [hq, he]

/-- C8: batch atomicity of createMany: a malformed element, an
intra-batch overlap in one masechet, or an overlap with an already
persisted row makes `create_assignments` raise, and the store is left
exactly as it was — no row of the batch is persisted. -/
theorem C8_batch_atomicity {st : Store} {ps : List Payload}
    (h : (∃ p ∈ ps, parse_payload p true none = .error .validationError)
       ∨ (∃ records, parse_all ps = .ok records
            ∧ validate_payload_ranges records = false)
       ∨ (∃ records, parse_all ps = .ok records
            ∧ ∃ r ∈ records,
                has_overlap st.rows r.masechet r.daf r.daf_end none = true)) :
    (∃ e, create_assignments st ps = .error e)
  ∧ applyOp st (.createMany ps) = st := by
  have herr : ∃ e, create_assignments st ps = .error e := by
    by_cases hemp : ps.isEmpty = true
    · exact ⟨.validationError, by unfold create_assignments; rw [if_pos hemp]⟩
    · rcases h with h | ⟨records, hpa, hv⟩ | ⟨records, hpa, hovr⟩
      · obtain ⟨e, he⟩ := parse_all_error_of_mem h
        refine ⟨e, ?_⟩
        unfold create_assignments
        rw [if_neg hemp]
        simp only [he]
      · refine ⟨.overlap, ?_⟩
        unfold create_assignments
        rw [if_neg hemp]
        simp only [hpa]
        rw [if_neg (by simp [hv])]
      · by_cases hv : validate_payload_ranges records = true
        · obtain ⟨e, he⟩ := create_loop_error_of_overlap records st hovr
          refine ⟨e, ?_⟩
          unfold create_assignments
          rw [if_neg hemp]
          simp only [hpa]
          rw [if_pos hv, he]
        · refine ⟨.overlap, ?_⟩
          unfold create_assignments
          rw [if_neg hemp]
          simp only [hpa]
          rw [if_neg hv]
  refine ⟨herr, ?_⟩
  obtain ⟨e, he⟩ := herr
  simp only [applyOp, he]

theorem C8_batch_atomicity_witness :
    (∃ e, create_assignments storeA15 [payloadA56] = .error e)
  ∧ applyOp storeA15 (.createMany [payloadA56]) = storeA15 :=
  C8_batch_atomicity
    (Or.inr (Or.inr ⟨[{ masechet := "A", name := "owner", daf := 5, daf_end := 6,
                        dedication := "", learned := false,
                        is_full_masechet := false }],
      rfl, by decide⟩))

/-- C10: an empty `create_assignments` batch raises `ValueError` and
changes nothing, while an empty `replace_assignments` batch succeeds,
clears every row and returns count 0. -/
theorem C10_empty_batch_asymmetry (st : Store) :
    create_assignments st [] = .error .validationError
      ∧ replace_assignments st [] = .ok ({ rows := [], nextId := st.nextId }, 0) :=
  ⟨rfl, rfl⟩

end Daf
